import Mathlib

/-!
Shallow embedding of the excel-lead-enrichment pipeline core
(src/lead_enrichment): phone classification, email selection, retry
policy, token-bucket rate limiter, the SQLite-backed repository state,
the Apollo webhook handler and the orchestrator batch loop, together
with theorems settling the frozen claims about them.

Conventions: Python `str | None` becomes `Option String`, Python string
truthiness becomes `truthyStr`, machine floats used by the retry policy
and the rate limiter become `ℚ` (the source only ever multiplies,
divides and compares them), SQLite tables become lists of records and
each repository method becomes a pure function from state to state.
-/

/-- Python truthiness of a `str | None` value: `None` and the empty
string are falsy. -/
def truthyStr : Option String → Bool
  | none => false
  | some s => s ≠ ""

/-- Python `str.lower()`: character-wise lowercasing, the same mapping
as `String.toLower`, written structurally over the character list. -/
def pyLower (s : String) : String :=
  String.mk (s.data.map Char.toLower)

/-- Python `a or b` on two `str | None` values: yields `a` when `a` is
truthy, otherwise `b`. -/
def pyOrStr (a b : Option String) : Option String :=
  if truthyStr a then a else b

/-! ### Phone classification (src/lead_enrichment/utils/phone.py) -/

/-- Model of `models.ApolloPhoneNumber`. The pydantic model declares
`raw_number`, `sanitized_number`, `type_cd` and `confidence_cd` and sets
`extra: allow`, so a payload entry may carry additional keys that are
stored but never read by any code path; `extra_do_not_call` records
whether the payload entry carried a do-not-call flag among those extra
keys. No function translated from the source reads it. -/
structure ApolloPhoneNumber where
  raw_number : Option String := none
  sanitized_number : Option String := none
  type_cd : Option String := none
  confidence_cd : Option String := none
  extra_do_not_call : Bool := false
deriving DecidableEq, Repr

/-- Apollo `type_cd` values that map to mobile (phone.py line 13). -/
def _APOLLO_MOBILE_TYPES : List String := ["mobile"]

/-- Apollo `type_cd` values that map to direct dial (phone.py line 15). -/
def _APOLLO_DIRECT_TYPES : List String := ["work_direct", "direct_dial", "work_hq", "other"]

/-- Apollo confidence ranking dictionary with its `.get(key, 0)` default
(phone.py lines 18-23 and 43). -/
def _APOLLO_CONFIDENCE_RANK (s : String) : Int :=
  if s = "very_high" then 4
  else if s = "high" then 3
  else if s = "medium" then 2
  else if s = "low" then 1
  else 0

/-- Loop body of `classify_apollo_phones` (phone.py lines 38-51), with
the loop state `(mobile, direct, best_mobile_conf, best_direct_conf)`
made explicit. -/
def classifyApolloGo : Option String → Option String → Int → Int →
    List ApolloPhoneNumber → Option String × Option String
  | mobile, direct, _, _, [] => (mobile, direct)
  | mobile, direct, bestM, bestD, phone :: rest =>
    let number := pyOrStr phone.sanitized_number phone.raw_number
    if truthyStr number = false then
      classifyApolloGo mobile direct bestM bestD rest
    else
      let conf := _APOLLO_CONFIDENCE_RANK (phone.confidence_cd.getD "")
      let type_cd := pyLower (phone.type_cd.getD "")
      if type_cd ∈ _APOLLO_MOBILE_TYPES ∧ conf > bestM then
        classifyApolloGo number direct conf bestD rest
      else if type_cd ∈ _APOLLO_DIRECT_TYPES ∧ conf > bestD then
        classifyApolloGo mobile number bestM conf rest
      else
        classifyApolloGo mobile direct bestM bestD rest

/-- Model of `classify_apollo_phones` (phone.py lines 26-53): highest
confidence wins inside each category; no do-not-call handling exists in
the source function. Returns `(mobile, direct_dial)`. -/
def classify_apollo_phones (phones : List ApolloPhoneNumber) :
    Option String × Option String :=
  classifyApolloGo none none (-1) (-1) phones

/-- Model of `models.LushaPhoneNumber`: declared fields `number`
(required), `phoneType` and `doNotCall`, with `extra: allow`. The
classifier in the source reads `phone.phone`, an attribute the model
does not declare: under pydantic `extra: allow` that resolves to an
extra payload key `phone` when present and raises `AttributeError`
otherwise; `extra_phone` records that extra key. -/
structure LushaPhoneNumber where
  number : String
  phone_type : Option String := none
  do_not_call : Bool := false
  extra_phone : Option String := none
deriving DecidableEq, Repr

/-- Loop body of `classify_lusha_phones` (phone.py lines 67-74) with the
state `(mobile, direct)` explicit. The `phone.phone` attribute access is
the `extra_phone` lookup; an entry reached for selection without that
extra key raises, modelled as `Except.error`. -/
def classifyLushaGo : Option String → Option String → List LushaPhoneNumber →
    Except String (Option String × Option String)
  | mobile, direct, [] => Except.ok (mobile, direct)
  | mobile, direct, phone :: rest =>
    if phone.do_not_call then
      classifyLushaGo mobile direct rest
    else
      let ptype := pyLower (phone.phone_type.getD "")
      if ptype = "mobile" ∧ truthyStr mobile = false then
        match phone.extra_phone with
        | none => Except.error "AttributeError: no attribute phone"
        | some v => classifyLushaGo (some v) direct rest
      else if (ptype = "directdial" ∨ ptype = "landline") ∧ truthyStr direct = false then
        match phone.extra_phone with
        | none => Except.error "AttributeError: no attribute phone"
        | some v => classifyLushaGo mobile (some v) rest
      else
        classifyLushaGo mobile direct rest

/-- Model of `classify_lusha_phones` (phone.py lines 56-76): skips
do-not-call entries, then first match per category wins. -/
def classify_lusha_phones (phones : List LushaPhoneNumber) :
    Except String (Option String × Option String) :=
  classifyLushaGo none none phones

/-- Candidate predicate for the mobile slot of the Lusha classifier: not
do-not-call and the lowered type tag is `mobile`. -/
def lushaMobileCand (p : LushaPhoneNumber) : Bool :=
  !p.do_not_call && (pyLower (p.phone_type.getD "") == "mobile")

/-- Candidate predicate for the direct-dial slot of the Lusha
classifier: not do-not-call and the lowered type tag is `directdial` or
`landline`. -/
def lushaDirectCand (p : LushaPhoneNumber) : Bool :=
  !p.do_not_call &&
    (pyLower (p.phone_type.getD "") == "directdial" ||
     pyLower (p.phone_type.getD "") == "landline")

/-! ### Email selection (src/lead_enrichment/clients/lusha.py) -/

/-- Model of `models.LushaEmailAddress`. -/
structure LushaEmailAddress where
  email : String
  email_type : Option String := none
  email_confidence : Option String := none
deriving DecidableEq, Repr

/-- Email-selection block of `LushaClient._save_contact_data` (lusha.py
lines 178-182): iterate the addresses, and for each truthy email
overwrite the pick whenever its type is `work` or `business`, or
whenever nothing has been picked yet. -/
def lusha_best_email (addrs : List LushaEmailAddress) : Option String :=
  addrs.foldl
    (fun email addr =>
      if addr.email ≠ "" then
        if addr.email_type = some "work" ∨ addr.email_type = some "business" ∨
            truthyStr email = false then
          some addr.email
        else email
      else email)
    none

/-- A work or business typed address with a truthy email, the branch
that unconditionally overwrites the pick in `_save_contact_data`. -/
def isWorkEmail (a : LushaEmailAddress) : Bool :=
  a.email != "" && (a.email_type == some "work" || a.email_type == some "business")

/-! ### Retry policy (src/lead_enrichment/utils/retry.py) -/

/-- A failure caught by the `with_retry` wrapper: an
`httpx.HTTPStatusError` whose response may carry a parsed numeric
`Retry-After` header (`none` stands for an absent or empty header, the
falsy cases of `if retry_after`), or a transport failure
(`httpx.TimeoutException` / `httpx.ConnectError`). -/
inductive RetryFailure where
  | httpStatus (status : Nat) (retry_after : Option ℚ)
  | transport
deriving DecidableEq, Repr

/-- What one iteration of the `with_retry` loop does with a caught
failure: re-raise it, or sleep `wait` seconds and retry. -/
inductive RetryAction where
  | raiseNow
  | sleepThenRetry (wait : ℚ)
deriving DecidableEq, Repr

/-- Model of `RETRYABLE_STATUS_CODES` (retry.py line 14). -/
def RETRYABLE_STATUS_CODES : List Nat := [429, 500, 502, 503, 504]

/-- Decision logic of one iteration of the `with_retry` loop (retry.py
lines 36-71) for attempt number `attempt` (1-based, the loop runs
attempts `1..max_attempts`): non-retryable statuses and the final
attempt re-raise; a 429 honors a carried `Retry-After` value; every
other retryable failure waits `backoff_base ^ attempt`. -/
def retry_decision (max_attempts : Nat) (backoff_base : ℚ)
    (retryable_status_codes : List Nat) (attempt : Nat)
    (failure : RetryFailure) : RetryAction :=
  match failure with
  | RetryFailure.httpStatus status retry_after =>
    if status ∉ retryable_status_codes ∨ attempt = max_attempts then
      RetryAction.raiseNow
    else if status = 429 then
      match retry_after with
      | some w => RetryAction.sleepThenRetry w
      | none => RetryAction.sleepThenRetry (backoff_base ^ attempt)
    else
      RetryAction.sleepThenRetry (backoff_base ^ attempt)
  | RetryFailure.transport =>
    if attempt = max_attempts then RetryAction.raiseNow
    else RetryAction.sleepThenRetry (backoff_base ^ attempt)

/-! ### Repository state (src/lead_enrichment/db/repository.py and schema.py) -/

/-- One row of the `enrichment_rows` table (schema.py lines 7-32);
`row_id` is the integer primary key. Timestamp columns other than
`updated_at` take no part in any claim and are omitted. -/
structure DBRow where
  row_id : Nat
  first_name : String := ""
  last_name : String := ""
  company : String := ""
  lusha_status : String := "pending"
  lusha_email : Option String := none
  lusha_mobile : Option String := none
  lusha_direct : Option String := none
  lusha_error : Option String := none
  lusha_raw : Option String := none
  apollo_status : String := "pending"
  apollo_email : Option String := none
  apollo_mobile : Option String := none
  apollo_direct : Option String := none
  apollo_person_id : Option String := none
  apollo_error : Option String := none
  apollo_raw : Option String := none
  updated_at : String := ""
deriving DecidableEq, Repr, Inhabited

/-- One row of the `webhook_tracking` table (schema.py lines 35-44),
which declares `UNIQUE(apollo_person_id)`. -/
structure TrackingRow where
  apollo_person_id : String
  row_id : Nat
  batch_id : Option String := none
  received_at : Option String := none
  payload : Option String := none
deriving DecidableEq, Repr

/-- One row of the `batch_log` table (schema.py lines 47-57). -/
structure BatchLogRow where
  api : String
  batch_id : String
  row_ids : List Nat
  status : String := "submitted"
  response_at : Option String := none
  http_status : Option Nat := none
  error : Option String := none
deriving DecidableEq, Repr

/-- The SQLite database behind `Repository`: the three tables a claim
touches, each as a list of rows in insertion order. -/
structure DB where
  rows : List DBRow := []
  tracking : List TrackingRow := []
  batch_log : List BatchLogRow := []
deriving DecidableEq, Repr

/-- SQL `UPDATE enrichment_rows SET ... WHERE row_id = ?`: apply `f` to
every row whose primary key matches. -/
def DB.updateRows (db : DB) (row_id : Nat) (f : DBRow → DBRow) : DB :=
  { db with rows := db.rows.map (fun r => if r.row_id = row_id then f r else r) }

/-- Model of `Repository.update_lusha_result` (repository.py lines
115-136): sets the whole Lusha column group, every keyword argument
defaulting to NULL. -/
def update_lusha_result (db : DB) (row_id : Nat) (status : String)
    (email mobile direct error_ raw_json : Option String) (now : String) : DB :=
  db.updateRows row_id (fun r =>
    { r with lusha_status := status, lusha_email := email, lusha_mobile := mobile,
             lusha_direct := direct, lusha_error := error_, lusha_raw := raw_json,
             updated_at := now })

/-- Model of `Repository.update_apollo_sync_result` (repository.py lines
140-160). -/
def update_apollo_sync_result (db : DB) (row_id : Nat) (status : String)
    (email person_id error_ raw_json : Option String) (now : String) : DB :=
  db.updateRows row_id (fun r =>
    { r with apollo_status := status, apollo_email := email,
             apollo_person_id := person_id, apollo_error := error_,
             apollo_raw := raw_json, updated_at := now })

/-- Model of `Repository.update_apollo_phone_result` (repository.py
lines 162-181): sets the phone columns and unconditionally sets
`apollo_status = 'complete'`; `COALESCE(apollo_raw || ' | ' || ?,
apollo_raw)` appends when both operands are non-NULL (SQL concatenation
with NULL yields NULL, which COALESCE then replaces by the old value). -/
def update_apollo_phone_result (db : DB) (row_id : Nat)
    (mobile direct raw_json : Option String) (now : String) : DB :=
  db.updateRows row_id (fun r =>
    { r with apollo_mobile := mobile, apollo_direct := direct,
             apollo_status := "complete",
             apollo_raw := match r.apollo_raw, raw_json with
               | some a, some b => some (a ++ " | " ++ b)
               | _, _ => r.apollo_raw,
             updated_at := now })

/-- Model of `Repository.create_webhook_tracking` (repository.py lines
185-195): `INSERT OR IGNORE` against `UNIQUE(apollo_person_id)`, so the
insert is dropped when a tracking row with that identifier exists. -/
def create_webhook_tracking (db : DB) (apollo_person_id : String)
    (row_id : Nat) (batch_id : Option String) : DB :=
  if db.tracking.any (fun t => t.apollo_person_id == apollo_person_id) then db
  else
    { db with tracking := db.tracking ++
        [{ apollo_person_id := apollo_person_id, row_id := row_id,
           batch_id := batch_id }] }

/-- Model of `Repository.mark_webhook_received` (repository.py lines
197-217): select the owning `row_id` by identifier; when absent return
`None` without touching the state, otherwise stamp `received_at` and
the payload and return the `row_id` read before the update. -/
def mark_webhook_received (db : DB) (apollo_person_id : String)
    (payload : Option String) (now : String) : Option Nat × DB :=
  match db.tracking.find? (fun t => t.apollo_person_id == apollo_person_id) with
  | none => (none, db)
  | some t =>
    (some t.row_id,
     { db with tracking := db.tracking.map (fun u =>
         if u.apollo_person_id == apollo_person_id then
           { u with received_at := some now, payload := payload }
         else u) })

/-- Model of `Repository.count_pending_webhooks` (repository.py lines
226-230). -/
def count_pending_webhooks (db : DB) : Nat :=
  (db.tracking.filter (fun t => t.received_at == none)).length

/-- Model of `Repository.count_total_webhooks` (repository.py lines
232-234). -/
def count_total_webhooks (db : DB) : Nat :=
  db.tracking.length

/-- Model of `Repository.mark_webhook_timeouts` (repository.py lines
236-247): bulk `awaiting_webhook → timeout` transition, returning the
number of rows changed (`cursor.rowcount`). -/
def mark_webhook_timeouts (db : DB) (now : String) : Nat × DB :=
  ((db.rows.filter (fun r => r.apollo_status == "awaiting_webhook")).length,
   { db with rows := db.rows.map (fun r =>
       if r.apollo_status == "awaiting_webhook" then
         { r with apollo_status := "timeout", updated_at := now }
       else r) })

/-- Model of `Repository.log_batch` (repository.py lines 251-268):
append one audit row. -/
def log_batch (db : DB) (api batch_id : String) (row_ids : List Nat)
    (status : String) (http_status : Option Nat) (error_ : Option String) : DB :=
  { db with batch_log := db.batch_log ++
      [{ api := api, batch_id := batch_id, row_ids := row_ids, status := status,
         http_status := http_status, error := error_ }] }

/-- Model of `Repository.update_batch_status` (repository.py lines
270-286): `UPDATE batch_log SET ... WHERE batch_id = ?`. -/
def update_batch_status (db : DB) (batch_id : String) (status : String)
    (http_status : Option Nat) (error_ : Option String) (now : String) : DB :=
  { db with batch_log := db.batch_log.map (fun b =>
      if b.batch_id == batch_id then
        { b with status := status, response_at := some now,
                 http_status := http_status, error := error_ }
      else b) }

/-- Model of `Repository.total_row_count` (repository.py lines 109-111). -/
def total_row_count (db : DB) : Nat :=
  db.rows.length

/-- Model of `Repository._count_status` (repository.py lines 331-335);
the column name string becomes a column selector. -/
def _count_status (db : DB) (col : DBRow → String) (status : String) : Nat :=
  (db.rows.filter (fun r => col r == status)).length

/-- The `lusha` sub-dictionary of the status summary. -/
structure LushaSummary where
  complete : Nat
  error : Nat
  pending : Int
deriving DecidableEq, Repr

/-- The `apollo` sub-dictionary of the status summary. -/
structure ApolloSummary where
  complete : Nat
  awaiting_webhook : Nat
  timeout : Nat
  error : Nat
  pending : Int
deriving DecidableEq, Repr

/-- The dictionary returned by `get_status_summary`. -/
structure StatusSummary where
  total_rows : Nat
  lusha : LushaSummary
  apollo : ApolloSummary
deriving DecidableEq, Repr

/-- Model of `Repository.get_status_summary` (repository.py lines
305-329): counts each terminal or intermediate status and derives both
`pending` values as `total` minus the other counts, never counting a
stored `pending` directly. -/
def get_status_summary (db : DB) : StatusSummary :=
  let total := total_row_count db
  let lusha_complete := _count_status db (fun r => r.lusha_status) "complete"
  let lusha_error := _count_status db (fun r => r.lusha_status) "error"
  let apollo_complete := _count_status db (fun r => r.apollo_status) "complete"
  let apollo_awaiting := _count_status db (fun r => r.apollo_status) "awaiting_webhook"
  let apollo_timeout := _count_status db (fun r => r.apollo_status) "timeout"
  let apollo_error := _count_status db (fun r => r.apollo_status) "error"
  { total_rows := total
    lusha :=
      { complete := lusha_complete, error := lusha_error,
        pending := (total : Int) - lusha_complete - lusha_error }
    apollo :=
      { complete := apollo_complete, awaiting_webhook := apollo_awaiting,
        timeout := apollo_timeout, error := apollo_error,
        pending := (total : Int) - apollo_complete - apollo_awaiting -
          apollo_timeout - apollo_error } }

/-! ### Webhook correlator (src/lead_enrichment/webhook/handlers.py) -/

/-- Model of `models.ApolloWebhookPerson`. -/
structure ApolloWebhookPerson where
  id : Option String := none
  first_name : Option String := none
  last_name : Option String := none
  email : Option String := none
  phone_numbers : List ApolloPhoneNumber := []
deriving DecidableEq, Repr

/-- Model of `models.ApolloWebhookPayload` (the count fields take no
part in the handler). -/
structure ApolloWebhookPayload where
  status : Option String := none
  people : List ApolloWebhookPerson := []
deriving DecidableEq, Repr

/-- Deterministic stand-in for `json.dumps(person.model_dump(...))`
(handlers.py line 37); no claim depends on the exact text, only on the
value being threaded into `payload` and `raw_json`. -/
def personDump (p : ApolloWebhookPerson) : String :=
  String.intercalate ","
    (p.id.getD "" :: p.first_name.getD "" :: p.last_name.getD "" ::
     p.email.getD "" ::
     p.phone_numbers.map (fun ph => (pyOrStr ph.sanitized_number ph.raw_number).getD ""))

/-- Model of `handle_apollo_webhook` (handlers.py lines 19-64): for each
person entry, skip entries without a truthy identifier, mark the webhook
received (skipping when no tracking row owns the identifier), classify
the phones and write them with `update_apollo_phone_result`, counting
each correlated entry. -/
def handle_apollo_webhook (payload : ApolloWebhookPayload) (db : DB)
    (now : String) : Nat × DB :=
  payload.people.foldl
    (fun (st : Nat × DB) person =>
      if truthyStr person.id = false then st
      else
        let pid := person.id.getD ""
        let raw_payload := personDump person
        let marked := mark_webhook_received st.2 pid (some raw_payload) now
        match marked.1 with
        | none => (st.1, marked.2)
        | some row_id =>
          let phones := classify_apollo_phones person.phone_numbers
          (st.1 + 1,
           update_apollo_phone_result marked.2 row_id phones.1 phones.2
             (some raw_payload) now))
    (0, db)

/-! ### Rate limiter (src/lead_enrichment/clients/rate_limiter.py) -/

/-- State of `TokenBucketRateLimiter`: configured `rate` per `per`
seconds, capacity `burst`, current fractional `tokens` and the
`last_refill` monotonic-clock instant. -/
structure TokenBucketRateLimiter where
  rate : Nat
  per : ℚ
  burst : Nat
  tokens : ℚ
  last_refill : ℚ
deriving DecidableEq, Repr

/-- Model of `TokenBucketRateLimiter.__init__` (rate_limiter.py lines
19-25): `burst or rate` makes a `None` or zero burst default to `rate`;
the bucket starts full at `burst` tokens with `last_refill` set to the
construction instant `now`. -/
def TokenBucketRateLimiter.make (rate : Nat) (per : ℚ) (burst : Option Nat)
    (now : ℚ) : TokenBucketRateLimiter :=
  let b := match burst with
    | none => rate
    | some n => if n = 0 then rate else n
  { rate := rate, per := per, burst := b, tokens := (b : ℚ), last_refill := now }

/-- Model of `TokenBucketRateLimiter.acquire` (rate_limiter.py lines
27-43) called at monotonic instant `now`: refill continuously from the
elapsed time, cap at `burst`, then either consume a token with no wait,
or compute the exact wait for one token, sleep it, and leave the bucket
at zero. Returns the slept duration and the new state. -/
def TokenBucketRateLimiter.acquire (l : TokenBucketRateLimiter) (now : ℚ) :
    ℚ × TokenBucketRateLimiter :=
  let elapsed := now - l.last_refill
  let tokens := min (l.burst : ℚ) (l.tokens + elapsed * ((l.rate : ℚ) / l.per))
  if tokens < 1 then
    ((1 - tokens) * (l.per / (l.rate : ℚ)),
     { l with tokens := 0, last_refill := now })
  else
    (0, { l with tokens := tokens - 1, last_refill := now })

/-- The limiter state after `k` acquisitions issued at the same instant
`now`. -/
def acquireIter (l : TokenBucketRateLimiter) (now : ℚ) : Nat → TokenBucketRateLimiter
  | 0 => l
  | Nat.succ k => ((acquireIter l now k).acquire now).2

/-! ### Provider client A and the orchestrator batch loop
(src/lead_enrichment/clients/lusha.py, src/lead_enrichment/orchestrator.py) -/

/-- Model of `models.PersonInput`. -/
structure PersonInput where
  row_id : Nat
  first_name : String := ""
  last_name : String := ""
  company : String := ""
deriving DecidableEq, Repr

/-- Model of `models.LushaContactData`. -/
structure LushaContactData where
  first_name : Option String := none
  last_name : Option String := none
  email_addresses : List LushaEmailAddress := []
  phone_numbers : List LushaPhoneNumber := []
deriving DecidableEq, Repr

/-- Model of `models.LushaContact`. -/
structure LushaContact where
  error : Option String := none
  data : Option LushaContactData := none
deriving DecidableEq, Repr

/-- Model of `models.LushaPersonResponse`. -/
structure LushaPersonResponse where
  contact : Option LushaContact := none
deriving DecidableEq, Repr

/-- Model of `models.LushaBulkContact`. -/
structure LushaBulkContact where
  error : Option String := none
  is_credit_charged : Option Bool := none
  data : Option LushaContactData := none
deriving DecidableEq, Repr

/-- Deterministic stand-in for `json.dumps(data.model_dump(...))`
(lusha.py lines 187-191); no claim depends on the exact text. -/
def contactDataDump (d : LushaContactData) : String :=
  String.intercalate ","
    (d.email_addresses.map (fun a => a.email) ++
     d.phone_numbers.map (fun p => p.number))

/-- Model of `LushaClient._save_contact_data` (lusha.py lines 170-200):
select the best email, classify the phones (which can raise, see
`classifyLushaGo`), then write status `complete` with the extracted
fields. -/
def _save_contact_data (row_id : Nat) (data : LushaContactData) (db : DB)
    (now : String) : Except String DB :=
  let email := lusha_best_email data.email_addresses
  match classify_lusha_phones data.phone_numbers with
  | Except.error e => Except.error e
  | Except.ok phones =>
    Except.ok (update_lusha_result db row_id "complete" email phones.1 phones.2
      none (some (contactDataDump data)) now)

/-- Model of `LushaClient._save_single_result` (lusha.py lines 125-142). -/
def _save_single_result (row_id : Nat) (response : LushaPersonResponse)
    (db : DB) (now : String) : Except String DB :=
  match response.contact with
  | none =>
    Except.ok (update_lusha_result db row_id "error" none none none
      (some "No contact returned") none now)
  | some contact =>
    if truthyStr contact.error then
      Except.ok (update_lusha_result db row_id "error" none none none
        contact.error none now)
    else
      match contact.data with
      | none =>
        Except.ok (update_lusha_result db row_id "error" none none none
          (some "No data in contact") none now)
      | some data => _save_contact_data row_id data db now

/-- Model of `LushaClient._save_bulk_results` (lusha.py lines 144-168):
walk the persons in order, look each up in the bulk-result dictionary by
stringified `row_id`, record per-person errors, save matched contact
data and count successes. -/
def _save_bulk_results : List PersonInput → List (String × LushaBulkContact) →
    DB → String → Except String (Nat × DB)
  | [], _, db, _ => Except.ok (0, db)
  | person :: rest, results, db, now =>
    match (results.find? (fun kv => kv.1 == toString person.row_id)).map (fun kv => kv.2) with
    | none =>
      _save_bulk_results rest results
        (update_lusha_result db person.row_id "error" none none none
          (some "No result returned") none now) now
    | some contact =>
      if truthyStr contact.error then
        _save_bulk_results rest results
          (update_lusha_result db person.row_id "error" none none none
            contact.error none now) now
      else
        match contact.data with
        | none =>
          _save_bulk_results rest results
            (update_lusha_result db person.row_id "error" none none none
              (some "No data in contact") none now) now
        | some data =>
          match _save_contact_data person.row_id data db now with
          | Except.error e => Except.error e
          | Except.ok db1 =>
            match _save_bulk_results rest results db1 now with
            | Except.error e => Except.error e
            | Except.ok st => Except.ok (st.1 + 1, st.2)

/-- The remote interaction of one `LushaClient.enrich_and_save` call,
supplied as an oracle: the outcome of `enrich_single` for the
one-person branch and of `enrich_bulk` otherwise. An `Except.error`
stands for a raised transport, HTTP or parse exception (including one
re-raised after the retry budget is exhausted). -/
structure LushaRemoteOracle where
  single : Except String LushaPersonResponse
  bulk : Except String (List (String × LushaBulkContact))

/-- Model of `LushaClient.enrich_and_save` (lusha.py lines 93-123): log
the batch, run the branch for the batch size, on success mark the batch
log `complete` and return the success count, on any exception mark the
batch log `error`, write status `error` with the failure text on every
member row, and re-raise. In the source the member-error loop overwrites
the whole Lusha column group of every member, so resuming from the
pre-body state here yields the same final state as the source where
partial in-body writes persist until that loop overwrites them. -/
def lusha_enrich_and_save (persons : List PersonInput) (batch_id : String)
    (oracle : LushaRemoteOracle) (db : DB) (now : String) :
    Except String Nat × DB :=
  let db0 := log_batch db "lusha" batch_id (persons.map (fun p => p.row_id))
    "submitted" none none
  let body : Except String (Nat × DB) :=
    match persons with
    | [p] =>
      match oracle.single with
      | Except.error e => Except.error e
      | Except.ok result =>
        match _save_single_result p.row_id result db0 now with
        | Except.error e => Except.error e
        | Except.ok db1 =>
          let success := match result.contact with
            | some c => if c.data.isSome then 1 else 0
            | none => 0
          Except.ok (success, db1)
    | _ =>
      match oracle.bulk with
      | Except.error e => Except.error e
      | Except.ok results => _save_bulk_results persons results db0 now
  match body with
  | Except.ok st =>
    (Except.ok st.1, update_batch_status st.2 batch_id "complete" none none now)
  | Except.error exc =>
    let db1 := update_batch_status db0 batch_id "error" none (some exc) now
    (Except.error exc,
     persons.foldl
       (fun d p => update_lusha_result d p.row_id "error" none none none
         (some exc) none now)
       db1)

/-- Model of `orchestrator._chunked` (orchestrator.py lines 35-37). A
zero size makes the source `range` raise, so no chunks are produced. -/
def _chunked {α : Type} (items : List α) (size : Nat) : List (List α) :=
  if _h : size = 0 then []
  else if h2 : items.isEmpty then []
  else items.take size :: _chunked (items.drop size) size
termination_by items.length
decreasing_by
  have hpos : 0 < items.length := by
    cases items with
    | nil => simp at h2
    | cons a t => simp
  simp only [List.length_drop]
  omega

/-- The orchestrator batch loop shared by `EnrichmentService.enrich_lusha`
(orchestrator.py lines 98-109) and `EnrichmentService.enrich_apollo_sync`
(orchestrator.py lines 127-139): chunk the pending persons, process the
chunks sequentially through the given client call, accumulate the
success counts, and on a chunk exception log and continue with the next
chunk. Batch identifiers (random in the source) and remote outcomes are
supplied per chunk index. Returns `(total_success, final state)`. -/
def batch_loop {α : Type} (client : List PersonInput → String → α → DB → String →
    Except String Nat × DB) (pending : List PersonInput) (batch_size : Nat)
    (batch_ids : Nat → String) (oracles : Nat → α)
    (db : DB) (now : String) : Nat × DB :=
  (_chunked pending batch_size).enum.foldl
    (fun (st : Nat × DB) ib =>
      match client ib.2 (batch_ids ib.1) (oracles ib.1) st.2 now with
      | (Except.ok count, db1) => (st.1 + count, db1)
      | (Except.error _, db1) => (st.1, db1))
    (0, db)

/-- Model of `EnrichmentService.enrich_lusha` (orchestrator.py lines
89-111) restricted to its batch loop. -/
def enrich_lusha (pending : List PersonInput) (batch_size : Nat)
    (batch_ids : Nat → String) (oracles : Nat → LushaRemoteOracle)
    (db : DB) (now : String) : Nat × DB :=
  batch_loop lusha_enrich_and_save pending batch_size batch_ids oracles db now

/-! ### Provider client B (src/lead_enrichment/clients/apollo.py) -/

/-- Model of `models.ApolloPersonMatch`. -/
structure ApolloPersonMatch where
  id : Option String := none
  first_name : Option String := none
  last_name : Option String := none
  name : Option String := none
  email : Option String := none
  title : Option String := none
  phone_numbers : List ApolloPhoneNumber := []
deriving DecidableEq, Repr

/-- Model of `models.ApolloBulkMatchResponse` (the count fields take no
part in any claim; the source field `matches` is a Lean keyword and is
spelled `matchList` here). -/
structure ApolloBulkMatchResponse where
  status : Option String := none
  matchList : List (Option ApolloPersonMatch) := []
deriving DecidableEq, Repr

/-- Model of `models.ApolloSingleMatchResponse`. -/
structure ApolloSingleMatchResponse where
  person : Option ApolloPersonMatch := none
deriving DecidableEq, Repr

/-- Deterministic stand-in for `json.dumps(match.model_dump(...))`
(apollo.py lines 139 and 175); no claim depends on the exact text. -/
def matchDump (m : ApolloPersonMatch) : String :=
  String.intercalate ","
    (m.id.getD "" :: m.first_name.getD "" :: m.last_name.getD "" ::
     m.email.getD "" ::
     m.phone_numbers.map (fun ph => (pyOrStr ph.sanitized_number ph.raw_number).getD ""))

/-- Model of `ApolloClient._save_single_match` (apollo.py lines
125-149): a missing match or a falsy identifier records a `No match
found` error; otherwise write status `awaiting_webhook` with email and
person identifier and register the webhook correlation. Returns whether
the person matched and the new state. -/
def _save_single_match (row_id : Nat) (m : Option ApolloPersonMatch)
    (batch_id : String) (db : DB) (now : String) : Bool × DB :=
  match m with
  | none =>
    (false, update_apollo_sync_result db row_id "error" none none
      (some "No match found") none now)
  | some m =>
    if truthyStr m.id = false then
      (false, update_apollo_sync_result db row_id "error" none none
        (some "No match found") none now)
    else
      let db1 := update_apollo_sync_result db row_id "awaiting_webhook" m.email
        m.id none (some (matchDump m)) now
      (true, create_webhook_tracking db1 (m.id.getD "") row_id (some batch_id))

/-- Model of `ApolloClient._save_bulk_matches` (apollo.py lines
151-187): position `i` of the matches array belongs to person `i`; a
short array means `None` for the remaining positions. -/
def _save_bulk_matches (persons : List PersonInput)
    (matchList : List (Option ApolloPersonMatch)) (batch_id : String)
    (db : DB) (now : String) : Nat × DB :=
  (persons.enum.foldl
    (fun (st : Nat × DB) ip =>
      let m := (matchList.getD ip.1 none)
      match m with
      | none =>
        (st.1, update_apollo_sync_result st.2 ip.2.row_id "error" none none
          (some "No match found") none now)
      | some m =>
        if truthyStr m.id = false then
          (st.1, update_apollo_sync_result st.2 ip.2.row_id "error" none none
            (some "No match found") none now)
        else
          let db1 := update_apollo_sync_result st.2 ip.2.row_id "awaiting_webhook"
            m.email m.id none (some (matchDump m)) now
          (st.1 + 1, create_webhook_tracking db1 (m.id.getD "") ip.2.row_id
            (some batch_id)))
    (0, db))

/-- The remote interaction of one `ApolloClient.enrich_and_save` call,
supplied as an oracle, like `LushaRemoteOracle`. -/
structure ApolloRemoteOracle where
  single : Except String ApolloSingleMatchResponse
  bulk : Except String ApolloBulkMatchResponse

/-- Model of `ApolloClient.enrich_and_save` (apollo.py lines 87-123):
log the batch, run the branch for the batch size, on success mark the
batch log `complete` and return the match count, on any exception mark
the batch log `error`, write Apollo status `error` with the failure
text on every member row, and re-raise. The `response.matches or []`
fallback (apollo.py line 163) is the identity on the modelled list. -/
def apollo_enrich_and_save (persons : List PersonInput) (batch_id : String)
    (oracle : ApolloRemoteOracle) (db : DB) (now : String) :
    Except String Nat × DB :=
  let db0 := log_batch db "apollo" batch_id (persons.map (fun p => p.row_id))
    "submitted" none none
  let body : Except String (Nat × DB) :=
    match persons with
    | [p] =>
      match oracle.single with
      | Except.error e => Except.error e
      | Except.ok result =>
        let saved := _save_single_match p.row_id result.person batch_id db0 now
        Except.ok (if saved.1 then 1 else 0, saved.2)
    | _ =>
      match oracle.bulk with
      | Except.error e => Except.error e
      | Except.ok response =>
        Except.ok (_save_bulk_matches persons response.matchList batch_id db0 now)
  match body with
  | Except.ok st =>
    (Except.ok st.1, update_batch_status st.2 batch_id "complete" none none now)
  | Except.error exc =>
    let db1 := update_batch_status db0 batch_id "error" none (some exc) now
    (Except.error exc,
     persons.foldl
       (fun d p => update_apollo_sync_result d p.row_id "error" none none
         (some exc) none now)
       db1)

/-- Model of `EnrichmentService.enrich_apollo_sync` (orchestrator.py
lines 115-142) restricted to its batch loop. -/
def enrich_apollo_sync (pending : List PersonInput) (batch_size : Nat)
    (batch_ids : Nat → String) (oracles : Nat → ApolloRemoteOracle)
    (db : DB) (now : String) : Nat × DB :=
  batch_loop apollo_enrich_and_save pending batch_size batch_ids oracles db now

/-! ### Helper notions used by the claim statements -/

/-- The chunk-level remote call of `lusha_enrich_and_save` raises with
message `msg`: `enrich_single` for a one-person batch, `enrich_bulk`
otherwise. -/
def lushaOracleFails (batch : List PersonInput) (o : LushaRemoteOracle)
    (msg : String) : Prop :=
  match batch with
  | [_] => o.single = Except.error msg
  | _ => o.bulk = Except.error msg

/-- The chunk-level remote call of `apollo_enrich_and_save` raises with
message `msg`. -/
def apolloOracleFails (batch : List PersonInput) (o : ApolloRemoteOracle)
    (msg : String) : Prop :=
  match batch with
  | [_] => o.single = Except.error msg
  | _ => o.bulk = Except.error msg

/-- The row table `l2` arises from `l` by a per-row rewrite that keeps
every primary key and touches only rows whose `row_id` lies in `A`.
Every repository row update has this shape. -/
def RowsMapWithin (A : List Nat) (l l2 : List DBRow) : Prop :=
  ∃ g : DBRow → DBRow, l2 = l.map g ∧ (∀ r, (g r).row_id = r.row_id) ∧
    (∀ r, r.row_id ∉ A → g r = r)

/-- The batch-log rows carrying a given batch identifier. -/
def logWith (db : DB) (bid : String) : List BatchLogRow :=
  db.batch_log.filter (fun b => b.batch_id == bid)

/-- A sequence of `create_webhook_tracking` registrations, each call a
triple of external identifier, owning row and originating batch. -/
def register_all (db : DB) (calls : List (String × Nat × Option String)) : DB :=
  calls.foldl (fun d c => create_webhook_tracking d c.1 c.2.1 c.2.2) db

/-- Tracking-table lookup by external identifier, the `SELECT ... WHERE
apollo_person_id = ?` used by the repository. -/
def trackingLookup (db : DB) (pid : String) : Option TrackingRow :=
  db.tracking.find? (fun t => t.apollo_person_id == pid)

/-- A row counted by none of the four Apollo status counts of
`get_status_summary`. -/
def apolloOther (r : DBRow) : Bool :=
  !(r.apollo_status == "complete" || r.apollo_status == "awaiting_webhook" ||
    r.apollo_status == "timeout" || r.apollo_status == "error")

/-- A confidence assignment on Lusha phone entries, needed to state the
claimed confidence ranking: the Lusha phone model itself carries no
confidence field, so a claimed ranking can only refer to data the
classifier never reads. This one ranks longer `number` values higher. -/
def c4rank (p : LushaPhoneNumber) : Nat :=
  p.number.length

/-- The fact that every stored row with primary key `pid` satisfies `P`. -/
def RowsFact (pid : Nat) (P : DBRow → Prop) (l : List DBRow) : Prop :=
  ∀ r ∈ l, r.row_id = pid → P r

/-- The per-member record state written by the Lusha batch failure path. -/
def lushaErrFact (msg : String) (r : DBRow) : Prop :=
  r.lusha_status = "error" ∧ r.lusha_error = some msg

/-- The per-member record state written by the Apollo batch failure path. -/
def apolloErrFact (msg : String) (r : DBRow) : Prop :=
  r.apollo_status = "error" ∧ r.apollo_error = some msg

/-- The audit row left in the batch log by a failed batch: logged as
`submitted`, then marked `error` with the failure text. -/
def errLogEntry (api bid : String) (ids : List Nat) (msg now : String) : BatchLogRow :=
  { api := api, batch_id := bid, row_ids := ids, status := "error",
    response_at := some now, http_status := none, error := some msg }

/-- Concrete store for the callback-after-timeout scenario: one record
whose Apollo status has already been bulk-transitioned to `timeout`,
with its correlation row still registered. -/
def c1_db : DB :=
  { rows := [{ row_id := 1, apollo_status := "timeout" }],
    tracking := [{ apollo_person_id := "ext-9", row_id := 1 }] }

/-- The late callback person for the timeout scenario. -/
def c1_person : ApolloWebhookPerson :=
  { id := some "ext-9" }

/-- The late callback payload for the timeout scenario. -/
def c1_payload : ApolloWebhookPayload :=
  { people := [c1_person] }

/-- Concrete store for the empty-classification callback scenario: one
record awaiting its webhook, with its correlation registered. -/
def c10_db : DB :=
  { rows := [{ row_id := 1, apollo_status := "awaiting_webhook" }],
    tracking := [{ apollo_person_id := "ext-9", row_id := 1 }] }

/-- A callback person whose only phone entry matches neither type set,
so classification yields no number. -/
def c10_person : ApolloWebhookPerson :=
  { id := some "ext-9",
    phone_numbers := [{ raw_number := some "+49", type_cd := some "office" }] }

/-- The payload for the empty-classification callback scenario. -/
def c10_payload : ApolloWebhookPayload :=
  { people := [c10_person] }

/-! ### Theorems -/

theorem apollo_count_partition (l : List DBRow) :
    (l.filter (fun r => r.apollo_status == "complete")).length +
    (l.filter (fun r => r.apollo_status == "awaiting_webhook")).length +
    (l.filter (fun r => r.apollo_status == "timeout")).length +
    (l.filter (fun r => r.apollo_status == "error")).length +
    (l.filter apolloOther).length = l.length := by
  induction l with
  | nil => simp
  | cons r t ih =>
    simp only [List.filter_cons, apolloOther]
    by_cases h1 : r.apollo_status = "complete"
    · simp [h1]; omega
    · by_cases h2 : r.apollo_status = "awaiting_webhook"
      · simp [h1, h2]; omega
      · by_cases h3 : r.apollo_status = "timeout"
        · simp [h1, h2, h3]; omega
        · by_cases h4 : r.apollo_status = "error"
          · simp [h1, h2, h3, h4]; omega
          · simp [h1, h2, h3, h4, apolloOther] at ih ⊢; omega

/-- C7: for every store state, the Apollo column of `get_status_summary`
satisfies `pending + complete + error + awaiting_webhook + timeout =
total_rows`; `pending` is the derived value `total` minus the four
counted statuses, and it equals the number of rows in none of those four
statuses. -/
theorem c7_apollo_sum_invariant (db : DB) :
    (get_status_summary db).apollo.pending + (get_status_summary db).apollo.complete +
      (get_status_summary db).apollo.error + (get_status_summary db).apollo.awaiting_webhook +
      (get_status_summary db).apollo.timeout = ((get_status_summary db).total_rows : Int) ∧
    (get_status_summary db).apollo.pending =
      (((get_status_summary db).total_rows : Int)) -
      (get_status_summary db).apollo.complete - (get_status_summary db).apollo.awaiting_webhook -
      (get_status_summary db).apollo.timeout - (get_status_summary db).apollo.error ∧
    (get_status_summary db).apollo.pending = ((db.rows.filter apolloOther).length : Int) := by
  have hp := apollo_count_partition db.rows
  simp only [get_status_summary, total_row_count, _count_status]
  refine ⟨by ring, by ring, ?_⟩
  omega

/-- C5 counterexample: a retryable status 503 carrying a provider
`Retry-After` of 7 seconds waits the exponential backoff value 2, not
the provider-supplied 7, on attempt 1 of 3 with backoff base 2. -/
theorem c5_counterexample :
    503 ∈ RETRYABLE_STATUS_CODES ∧
    retry_decision 3 2 RETRYABLE_STATUS_CODES 1 (RetryFailure.httpStatus 503 (some 7)) =
      RetryAction.sleepThenRetry 2 ∧
    (2 : ℚ) ≠ 7 := by
  refine ⟨by decide, ?_, by norm_num⟩
  norm_num [retry_decision, RETRYABLE_STATUS_CODES]

/-- C5 amended: with attempts remaining, a 429 waits exactly a carried
`Retry-After` value and `backoff_base ^ attempt` without one; every
other retryable status waits `backoff_base ^ attempt` even when it
carries a `Retry-After`; transport failures wait
`backoff_base ^ attempt`. -/
theorem c5_retry_wait_rule (max_attempts attempt : Nat) (backoff_base : ℚ)
    (h : attempt ≠ max_attempts) :
    (∀ w : ℚ, retry_decision max_attempts backoff_base RETRYABLE_STATUS_CODES attempt
        (RetryFailure.httpStatus 429 (some w)) = RetryAction.sleepThenRetry w) ∧
    (retry_decision max_attempts backoff_base RETRYABLE_STATUS_CODES attempt
        (RetryFailure.httpStatus 429 none) =
      RetryAction.sleepThenRetry (backoff_base ^ attempt)) ∧
    (∀ s ∈ RETRYABLE_STATUS_CODES, s ≠ 429 → ∀ ra : Option ℚ,
      retry_decision max_attempts backoff_base RETRYABLE_STATUS_CODES attempt
        (RetryFailure.httpStatus s ra) =
      RetryAction.sleepThenRetry (backoff_base ^ attempt)) ∧
    (retry_decision max_attempts backoff_base RETRYABLE_STATUS_CODES attempt
        RetryFailure.transport = RetryAction.sleepThenRetry (backoff_base ^ attempt)) := by
  refine ⟨?_, ?_, ?_, ?_⟩
  · intro w
    simp [retry_decision, RETRYABLE_STATUS_CODES, h]
  · simp [retry_decision, RETRYABLE_STATUS_CODES, h]
  · intro s hs hs429 ra
    have hnc : ¬(s ∉ RETRYABLE_STATUS_CODES ∨ attempt = max_attempts) := by
      push_neg
      exact ⟨hs, h⟩
    simp only [retry_decision]
    rw [if_neg hnc, if_neg hs429]
  · simp [retry_decision, h]

/-- C5 witness: attempt 1 of 3 with backoff base 2 and a 429 carrying
`Retry-After: 2` waits exactly 2 seconds. -/
theorem c5_retry_wait_rule_witness :
    retry_decision 3 2 RETRYABLE_STATUS_CODES 1 (RetryFailure.httpStatus 429 (some 2)) =
      RetryAction.sleepThenRetry 2 :=
  (c5_retry_wait_rule 3 1 2 (by norm_num)).1 2

theorem lusha_best_email_go (addrs : List LushaEmailAddress) : ∀ acc : Option String,
    addrs.foldl
      (fun email addr =>
        if addr.email ≠ "" then
          if addr.email_type = some "work" ∨ addr.email_type = some "business" ∨
              truthyStr email = false then
            some addr.email
          else email
        else email)
      acc =
      ((addrs.filter isWorkEmail).getLast?).elim
        (if truthyStr acc then acc
         else (addrs.find? (fun a => a.email != "")).elim acc (fun a => some a.email))
        (fun a => some a.email) := by
  induction addrs with
  | nil =>
    intro acc
    by_cases ha : truthyStr acc = true <;> simp [ha]
  | cons a t ih =>
    intro acc
    simp only [List.foldl_cons, List.filter_cons, List.find?_cons]
    by_cases he : a.email = ""
    · have hw : isWorkEmail a = false := by simp [isWorkEmail, he]
      have hfind : (a.email != "") = false := by simp [he]
      rw [if_neg (not_not_intro he), ih acc]
      simp only [hw, Bool.false_eq_true, if_false, hfind]
    · have he2 : a.email ≠ "" := he
      have hfind : (a.email != "") = true := by simp [he]
      have htru : truthyStr (some a.email) = true := by simp [truthyStr, he]
      by_cases hw : a.email_type = some "work" ∨ a.email_type = some "business"
      · have hwa : isWorkEmail a = true := by
          rcases hw with h | h <;> simp [isWorkEmail, he, h]
        have hcond : a.email_type = some "work" ∨ a.email_type = some "business" ∨
            truthyStr acc = false := by
          rcases hw with h | h
          · exact Or.inl h
          · exact Or.inr (Or.inl h)
        rw [if_pos he2, if_pos hcond, ih (some a.email)]
        cases hfl : t.filter isWorkEmail with
        | nil => simp [hwa, hfl, htru]
        | cons b l =>
          rcases hgl : (b :: l).getLast? with _ | c
          · exact absurd (List.getLast?_eq_none_iff.mp hgl) (by simp)
          · simp [hwa, hfl, hgl, List.getLast?_cons_cons]
      · push_neg at hw
        obtain ⟨hw1, hw2⟩ := hw
        have hwa : isWorkEmail a = false := by simp [isWorkEmail, hw1, hw2]
        by_cases ha : truthyStr acc = true
        · have hcond : ¬(a.email_type = some "work" ∨ a.email_type = some "business" ∨
              truthyStr acc = false) := by simp [hw1, hw2, ha]
          rw [if_pos he2, if_neg hcond, ih acc]
          simp [hwa, ha]
        · have hacc : truthyStr acc = false := by simpa using ha
          have hcond : a.email_type = some "work" ∨ a.email_type = some "business" ∨
              truthyStr acc = false := Or.inr (Or.inr hacc)
          rw [if_pos he2, if_pos hcond, ih (some a.email)]
          simp [hwa, htru, hacc, hfind]

/-- C3 counterexample: with two work-typed emails, the selection block
of `_save_contact_data` picks the second (last) one, not the first. -/
theorem c3_counterexample :
    lusha_best_email
      [{ email := "a@x", email_type := some "work" },
       { email := "b@x", email_type := some "work" }] = some "b@x" ∧
    (([{ email := "a@x", email_type := some "work" },
       { email := "b@x", email_type := some "work" }] :
         List LushaEmailAddress).find? isWorkEmail).map (fun a => a.email) =
      some "a@x" ∧
    some "b@x" ≠ some "a@x" := by
  refine ⟨rfl, rfl, by simp⟩

/-- C3 amended: the selected email is the LAST work/business-typed
nonempty email in encounter order when one exists, otherwise the first
nonempty email, otherwise nothing. -/
theorem c3_email_selection (addrs : List LushaEmailAddress) :
    lusha_best_email addrs =
      ((addrs.filter isWorkEmail).getLast?).elim
        ((addrs.find? (fun a => a.email != "")).map (fun a => a.email))
        (fun a => some a.email) := by
  rw [lusha_best_email, lusha_best_email_go addrs none]
  cases hfl : (addrs.filter isWorkEmail).getLast?
  · cases addrs.find? (fun a => a.email != "") <;> simp [truthyStr]
  · simp

theorem classifyLushaGo_provenance (t : List LushaPhoneNumber) :
    ∀ (mobile direct m d : Option String),
    classifyLushaGo mobile direct t = Except.ok (m, d) →
    (∀ v, m = some v →
      mobile = some v ∨ ∃ p ∈ t, p.do_not_call = false ∧ p.extra_phone = some v) ∧
    (∀ v, d = some v →
      direct = some v ∨ ∃ p ∈ t, p.do_not_call = false ∧ p.extra_phone = some v) := by
  induction t with
  | nil =>
    intro mobile direct m d h
    simp only [classifyLushaGo, Except.ok.injEq, Prod.mk.injEq] at h
    obtain ⟨h1, h2⟩ := h
    subst h1
    subst h2
    exact ⟨fun v hv => Or.inl hv, fun v hv => Or.inl hv⟩
  | cons p t ih =>
    intro mobile direct m d h
    simp only [classifyLushaGo] at h
    by_cases hdnc : p.do_not_call
    · rw [if_pos hdnc] at h
      obtain ⟨ihm, ihd⟩ := ih mobile direct m d h
      refine ⟨fun v hv => ?_, fun v hv => ?_⟩
      · rcases ihm v hv with h1 | ⟨q, hq, hdq, hpq⟩
        · exact Or.inl h1
        · exact Or.inr ⟨q, List.mem_cons_of_mem p hq, hdq, hpq⟩
      · rcases ihd v hv with h1 | ⟨q, hq, hdq, hpq⟩
        · exact Or.inl h1
        · exact Or.inr ⟨q, List.mem_cons_of_mem p hq, hdq, hpq⟩
    · have hdnc2 : p.do_not_call = false := by simpa using hdnc
      rw [if_neg hdnc] at h
      by_cases hc1 : pyLower (p.phone_type.getD "") = "mobile" ∧ truthyStr mobile = false
      · rw [if_pos hc1] at h
        cases hep : p.extra_phone with
        | none => rw [hep] at h; exact absurd h (by simp)
        | some v0 =>
          rw [hep] at h
          obtain ⟨ihm, ihd⟩ := ih (some v0) direct m d h
          refine ⟨fun v hv => ?_, fun v hv => ?_⟩
          · rcases ihm v hv with h1 | ⟨q, hq, hdq, hpq⟩
            · exact Or.inr ⟨p, List.mem_cons_self p t, hdnc2, by rw [hep, h1]⟩
            · exact Or.inr ⟨q, List.mem_cons_of_mem p hq, hdq, hpq⟩
          · rcases ihd v hv with h1 | ⟨q, hq, hdq, hpq⟩
            · exact Or.inl h1
            · exact Or.inr ⟨q, List.mem_cons_of_mem p hq, hdq, hpq⟩
      · rw [if_neg hc1] at h
        by_cases hc2 : (pyLower (p.phone_type.getD "") = "directdial" ∨
            pyLower (p.phone_type.getD "") = "landline") ∧ truthyStr direct = false
        · rw [if_pos hc2] at h
          cases hep : p.extra_phone with
          | none => rw [hep] at h; exact absurd h (by simp)
          | some v0 =>
            rw [hep] at h
            obtain ⟨ihm, ihd⟩ := ih mobile (some v0) m d h
            refine ⟨fun v hv => ?_, fun v hv => ?_⟩
            · rcases ihm v hv with h1 | ⟨q, hq, hdq, hpq⟩
              · exact Or.inl h1
              · exact Or.inr ⟨q, List.mem_cons_of_mem p hq, hdq, hpq⟩
            · rcases ihd v hv with h1 | ⟨q, hq, hdq, hpq⟩
              · exact Or.inr ⟨p, List.mem_cons_self p t, hdnc2, by rw [hep, h1]⟩
              · exact Or.inr ⟨q, List.mem_cons_of_mem p hq, hdq, hpq⟩
        · rw [if_neg hc2] at h
          obtain ⟨ihm, ihd⟩ := ih mobile direct m d h
          refine ⟨fun v hv => ?_, fun v hv => ?_⟩
          · rcases ihm v hv with h1 | ⟨q, hq, hdq, hpq⟩
            · exact Or.inl h1
            · exact Or.inr ⟨q, List.mem_cons_of_mem p hq, hdq, hpq⟩
          · rcases ihd v hv with h1 | ⟨q, hq, hdq, hpq⟩
            · exact Or.inl h1
            · exact Or.inr ⟨q, List.mem_cons_of_mem p hq, hdq, hpq⟩

theorem classifyApolloGo_extra_irrel (t : List ApolloPhoneNumber) :
    ∀ (mobile direct : Option String) (bm bd : Int) (f : ApolloPhoneNumber → Bool),
    classifyApolloGo mobile direct bm bd
      (t.map (fun p => { p with extra_do_not_call := f p })) =
    classifyApolloGo mobile direct bm bd t := by
  induction t with
  | nil => intro mobile direct bm bd f; rfl
  | cons p t ih =>
    intro mobile direct bm bd f
    simp only [List.map_cons, classifyApolloGo]
    split_ifs <;> apply ih

/-- C2 counterexample: the Apollo webhook classifier selects a number
flagged do-not-call in the payload (the flag is an extra field the code
never reads) even as the only candidate. -/
theorem c2_counterexample :
    classify_apollo_phones
      [{ sanitized_number := some "+491701", type_cd := some "mobile",
         confidence_cd := some "high", extra_do_not_call := true }] =
      (some "+491701", none) ∧
    ({ sanitized_number := some "+491701", type_cd := some "mobile",
       confidence_cd := some "high", extra_do_not_call := true } :
         ApolloPhoneNumber).extra_do_not_call = true := by
  exact ⟨rfl, rfl⟩

/-- C2 amended: the Lusha classifier never selects a do-not-call
flagged entry (every selected value stems from a non-flagged entry),
while the Apollo webhook classifier applies no do-not-call exclusion at
all: its result is invariant under arbitrarily re-flagging the payload
entries, so a flagged number is selected exactly as an unflagged one. -/
theorem c2_dnc_exclusion :
    (∀ (phones : List LushaPhoneNumber) (m d : Option String),
      classify_lusha_phones phones = Except.ok (m, d) →
      (∀ v, m = some v → ∃ p ∈ phones, p.do_not_call = false ∧ p.extra_phone = some v) ∧
      (∀ v, d = some v → ∃ p ∈ phones, p.do_not_call = false ∧ p.extra_phone = some v)) ∧
    (∀ (phones : List ApolloPhoneNumber) (f : ApolloPhoneNumber → Bool),
      classify_apollo_phones (phones.map (fun p => { p with extra_do_not_call := f p })) =
        classify_apollo_phones phones) := by
  constructor
  · intro phones m d h
    obtain ⟨hm, hd⟩ := classifyLushaGo_provenance phones none none m d h
    refine ⟨fun v hv => ?_, fun v hv => ?_⟩
    · exact (hm v hv).resolve_left (fun hx => Option.noConfusion hx)
    · exact (hd v hv).resolve_left (fun hx => Option.noConfusion hx)
  · intro phones f
    exact classifyApolloGo_extra_irrel phones none none (-1) (-1) f

/-- C2 witness: on a list with one do-not-call mobile entry and one
clean mobile entry, the Lusha classifier selects the clean entry. -/
theorem c2_dnc_exclusion_witness :
    ∃ p ∈ ([{ number := "1", phone_type := some "mobile", do_not_call := true,
              extra_phone := some "111" },
            { number := "2", phone_type := some "mobile", do_not_call := false,
              extra_phone := some "222" }] : List LushaPhoneNumber),
      p.do_not_call = false ∧ p.extra_phone = some "222" := by
  have h := (c2_dnc_exclusion.1
    [{ number := "1", phone_type := some "mobile", do_not_call := true,
       extra_phone := some "111" },
     { number := "2", phone_type := some "mobile", do_not_call := false,
       extra_phone := some "222" }]
    (some "222") none rfl).1 "222" rfl
  exact h

theorem classifyLushaGo_first_match (t : List LushaPhoneNumber) :
    ∀ (mobile direct : Option String),
    (∀ p ∈ t, ∃ v, p.extra_phone = some v ∧ v ≠ "") →
    classifyLushaGo mobile direct t = Except.ok
      ((if truthyStr mobile then mobile
        else (t.find? lushaMobileCand).elim mobile (fun p => p.extra_phone)),
       (if truthyStr direct then direct
        else (t.find? lushaDirectCand).elim direct (fun p => p.extra_phone))) := by
  induction t with
  | nil =>
    intro mobile direct _
    simp only [classifyLushaGo, List.find?_nil, Option.elim_none, ite_self]
  | cons p t ih =>
    intro mobile direct hall
    obtain ⟨v, hep, hv⟩ := hall p (List.mem_cons_self p t)
    have ht : ∀ q ∈ t, ∃ v, q.extra_phone = some v ∧ v ≠ "" :=
      fun q hq => hall q (List.mem_cons_of_mem p hq)
    have htruv : truthyStr (some v) = true := by simp [truthyStr, hv]
    simp only [classifyLushaGo, List.find?_cons]
    by_cases hdnc : p.do_not_call
    · have hmc : lushaMobileCand p = false := by simp [lushaMobileCand, hdnc]
      have hdc : lushaDirectCand p = false := by simp [lushaDirectCand, hdnc]
      rw [if_pos hdnc, ih mobile direct ht]
      simp [hmc, hdc]
    · have hdnc2 : p.do_not_call = false := by simpa using hdnc
      rw [if_neg hdnc]
      by_cases h1 : pyLower (p.phone_type.getD "") = "mobile"
      · have hmc : lushaMobileCand p = true := by simp [lushaMobileCand, hdnc2, h1]
        have hdc : lushaDirectCand p = false := by simp [lushaDirectCand, hdnc2, h1]
        by_cases hm : truthyStr mobile = true
        · have hnc1 : ¬(pyLower (p.phone_type.getD "") = "mobile" ∧
              truthyStr mobile = false) := by simp [hm]
          have hnc2 : ¬((pyLower (p.phone_type.getD "") = "directdial" ∨
              pyLower (p.phone_type.getD "") = "landline") ∧
              truthyStr direct = false) := by simp [h1]
          rw [if_neg hnc1, if_neg hnc2, ih mobile direct ht]
          simp [hm, hdc]
        · have hmf : truthyStr mobile = false := by simpa using hm
          have hc1 : pyLower (p.phone_type.getD "") = "mobile" ∧
              truthyStr mobile = false := ⟨h1, hmf⟩
          rw [if_pos hc1, hep]
          dsimp only
          rw [ih (some v) direct ht]
          simp [hmf, hmc, hdc, htruv, hep]
      · have hmc : lushaMobileCand p = false := by simp [lushaMobileCand, h1]
        by_cases h2 : pyLower (p.phone_type.getD "") = "directdial" ∨
            pyLower (p.phone_type.getD "") = "landline"
        · have hdc : lushaDirectCand p = true := by
            rcases h2 with h | h <;> simp [lushaDirectCand, hdnc2, h]
          have hnc1 : ¬(pyLower (p.phone_type.getD "") = "mobile" ∧
              truthyStr mobile = false) := by simp [h1]
          rw [if_neg hnc1]
          by_cases hd : truthyStr direct = true
          · have hnc2 : ¬((pyLower (p.phone_type.getD "") = "directdial" ∨
                pyLower (p.phone_type.getD "") = "landline") ∧
                truthyStr direct = false) := by simp [hd]
            rw [if_neg hnc2, ih mobile direct ht]
            simp [hd, hmc]
          · have hdf : truthyStr direct = false := by simpa using hd
            have hc2 : (pyLower (p.phone_type.getD "") = "directdial" ∨
                pyLower (p.phone_type.getD "") = "landline") ∧
                truthyStr direct = false := ⟨h2, hdf⟩
            rw [if_pos hc2, hep]
            dsimp only
            rw [ih mobile (some v) ht]
            simp [hdf, hmc, hdc, htruv, hep]
        · have hdc : lushaDirectCand p = false := by
            push_neg at h2
            simp [lushaDirectCand, h2.1, h2.2]
          have hnc1 : ¬(pyLower (p.phone_type.getD "") = "mobile" ∧
              truthyStr mobile = false) := by simp [h1]
          have hnc2 : ¬((pyLower (p.phone_type.getD "") = "directdial" ∨
              pyLower (p.phone_type.getD "") = "landline") ∧
              truthyStr direct = false) := by simp [h2]
          rw [if_neg hnc1, if_neg hnc2, ih mobile direct ht]
          simp [hmc, hdc]

/-- C4 counterexample: two clean mobile-typed entries where any
confidence assignment ranks the second higher; the classifier still
selects the first, so no confidence ranking is applied. -/
theorem c4_counterexample :
    classify_lusha_phones
      [{ number := "1", phone_type := some "mobile", extra_phone := some "111" },
       { number := "22", phone_type := some "mobile", extra_phone := some "222" }] =
      Except.ok (some "111", none) ∧
    lushaMobileCand { number := "1", phone_type := some "mobile", extra_phone := some "111" } = true ∧
    lushaMobileCand { number := "22", phone_type := some "mobile", extra_phone := some "222" } = true ∧
    c4rank { number := "22", phone_type := some "mobile", extra_phone := some "222" } >
      c4rank { number := "1", phone_type := some "mobile", extra_phone := some "111" } ∧
    ("111" : String) ≠ "222" := by
  refine ⟨rfl, rfl, rfl, by decide, by simp⟩

/-- C4 amended: Lusha phone classification applies no confidence
ranking: within each category the first non-do-not-call entry of
matching type in encounter order is selected (stated under the
assumption that every entry carries a nonempty extra `phone` value,
without which the source selection raises `AttributeError`). -/
theorem c4_lusha_first_match_wins (phones : List LushaPhoneNumber)
    (h : ∀ p ∈ phones, ∃ v, p.extra_phone = some v ∧ v ≠ "") :
    classify_lusha_phones phones = Except.ok
      ((phones.find? lushaMobileCand).bind (fun p => p.extra_phone),
       (phones.find? lushaDirectCand).bind (fun p => p.extra_phone)) := by
  rw [classify_lusha_phones, classifyLushaGo_first_match phones none none h]
  cases phones.find? lushaMobileCand <;> cases phones.find? lushaDirectCand <;>
    simp [truthyStr]

/-- C4 witness: a mixed-case mobile entry and a directDial entry are
selected into their categories in encounter order. -/
theorem c4_lusha_first_match_wins_witness :
    classify_lusha_phones
      [{ number := "1", phone_type := some "Mobile", extra_phone := some "111" },
       { number := "2", phone_type := some "directDial", extra_phone := some "222" }] =
      Except.ok (some "111", some "222") := by
  rw [c4_lusha_first_match_wins _ (by
    intro p hp
    simp only [List.mem_cons, List.not_mem_nil, or_false] at hp
    rcases hp with rfl | rfl
    · exact ⟨"111", rfl, by decide⟩
    · exact ⟨"222", rfl, by decide⟩)]
  rfl

theorem acquireIter_same_instant (rate : Nat) (per t0 : ℚ) :
    ∀ k, k ≤ rate → acquireIter (TokenBucketRateLimiter.make rate per none t0) t0 k =
      { rate := rate, per := per, burst := rate, tokens := (rate : ℚ) - k,
        last_refill := t0 } := by
  intro k
  induction k with
  | zero =>
    intro _
    simp [acquireIter, TokenBucketRateLimiter.make]
  | succ k ihk =>
    intro hk
    have hk' : k ≤ rate := Nat.le_of_succ_le hk
    have hge : (1 : ℚ) ≤ (rate : ℚ) - k := by
      have : (k : ℚ) + 1 ≤ (rate : ℚ) := by exact_mod_cast hk
      linarith
    rw [acquireIter, ihk hk']
    simp only [TokenBucketRateLimiter.acquire]
    rw [sub_self, zero_mul, add_zero,
      min_eq_right (by
        have : (0 : ℚ) ≤ (k : ℚ) := Nat.cast_nonneg k
        linarith)]
    rw [if_neg (not_lt.mpr hge)]
    have : (rate : ℚ) - k - 1 = (rate : ℚ) - (k + 1 : Nat) := by push_cast; ring
    simp [this]

/-- C8: from a freshly built limiter with default burst, `rate`
acquisitions at one instant each wait zero and consume one token each
(tokens fall from `rate` to zero one by one), and the next acquisition
at the same instant computes a wait of exactly `per / rate`, hence at
least `per / rate`. -/
theorem c8_rate_limiter (rate : Nat) (per t0 : ℚ) (hrate : 1 ≤ rate) (hper : 0 < per) :
    (∀ k, k < rate →
      ((acquireIter (TokenBucketRateLimiter.make rate per none t0) t0 k).acquire t0).1 = 0 ∧
      (acquireIter (TokenBucketRateLimiter.make rate per none t0) t0 (k + 1)).tokens =
        (rate : ℚ) - (k + 1)) ∧
    ((acquireIter (TokenBucketRateLimiter.make rate per none t0) t0 rate).acquire t0).1 =
      per / rate ∧
    per / rate ≤
      ((acquireIter (TokenBucketRateLimiter.make rate per none t0) t0 rate).acquire t0).1 := by
  have hwait : ((acquireIter (TokenBucketRateLimiter.make rate per none t0) t0
      rate).acquire t0).1 = per / rate := by
    rw [acquireIter_same_instant rate per t0 rate (le_refl rate)]
    simp only [TokenBucketRateLimiter.acquire]
    rw [sub_self, sub_self, zero_mul, add_zero,
      min_eq_right (Nat.cast_nonneg rate)]
    rw [if_pos (by norm_num)]
    ring
  refine ⟨fun k hk => ⟨?_, ?_⟩, hwait, le_of_eq hwait.symm⟩
  · rw [acquireIter_same_instant rate per t0 k (Nat.le_of_lt hk)]
    have hge : (1 : ℚ) ≤ (rate : ℚ) - k := by
      have : (k : ℚ) + 1 ≤ (rate : ℚ) := by exact_mod_cast hk
      linarith
    simp only [TokenBucketRateLimiter.acquire]
    rw [sub_self, zero_mul, add_zero,
      min_eq_right (by
        have : (0 : ℚ) ≤ (k : ℚ) := Nat.cast_nonneg k
        linarith)]
    rw [if_neg (not_lt.mpr hge)]
  · rw [acquireIter_same_instant rate per t0 (k + 1) hk]
    push_cast
    ring

/-- C8 witness: with rate 2 per 1 second, the first two instantaneous
acquisitions wait zero and the third computes a wait of one half
second. -/
theorem c8_rate_limiter_witness :
    ((acquireIter (TokenBucketRateLimiter.make 2 1 none 0) 0 0).acquire 0).1 = 0 ∧
    ((acquireIter (TokenBucketRateLimiter.make 2 1 none 0) 0 1).acquire 0).1 = 0 ∧
    ((acquireIter (TokenBucketRateLimiter.make 2 1 none 0) 0 2).acquire 0).1 = 1 / 2 := by
  have h := c8_rate_limiter 2 1 0 (by norm_num) (by norm_num)
  refine ⟨(h.1 0 (by norm_num)).1, (h.1 1 (by norm_num)).1, ?_⟩
  have h2 := h.2.1
  norm_num at h2
  exact h2

/-- C9: registering the same external identifier twice is a no-op:
after any sequence of registrations starting from a state with unique
identifiers, identifiers stay unique and each identifier resolves to
its pre-existing row if any, else to the first registration for it in
the call sequence. -/
theorem c9_registration_idempotent (calls : List (String × Nat × Option String)) :
    ∀ db : DB, (db.tracking.map (fun t => t.apollo_person_id)).Nodup →
    ((register_all db calls).tracking.map (fun t => t.apollo_person_id)).Nodup ∧
    (∀ pid : String, trackingLookup (register_all db calls) pid =
      (trackingLookup db pid).or
        ((calls.find? (fun c => c.1 == pid)).map (fun c =>
          { apollo_person_id := c.1, row_id := c.2.1, batch_id := c.2.2 }))) := by
  induction calls with
  | nil =>
    intro db hnd
    refine ⟨hnd, fun pid => ?_⟩
    simp only [register_all, List.foldl_nil, List.find?_nil, Option.map_none']
    cases trackingLookup db pid <;> rfl
  | cons c rest ih =>
    intro db hnd
    simp only [register_all, List.foldl_cons] at ih ⊢
    by_cases hmem : db.tracking.any (fun t => t.apollo_person_id == c.1)
    · have hcr : create_webhook_tracking db c.1 c.2.1 c.2.2 = db := by
        rw [create_webhook_tracking, if_pos hmem]
      rw [hcr]
      obtain ⟨hnd2, hlook⟩ := ih db hnd
      refine ⟨hnd2, fun pid => ?_⟩
      rw [hlook pid]
      by_cases hpid : c.1 = pid
      · have hsome : (trackingLookup db pid).isSome := by
          rw [trackingLookup, List.find?_isSome]
          obtain ⟨t, htm, htp⟩ := List.any_eq_true.mp hmem
          exact ⟨t, htm, by rw [← hpid]; exact htp⟩
        obtain ⟨t, ht⟩ := Option.isSome_iff_exists.mp hsome
        rw [ht]
        rfl
      · rw [List.find?_cons_of_neg _ (by simpa using hpid)]
    · have hnone : trackingLookup db c.1 = none := by
        rw [trackingLookup, List.find?_eq_none]
        intro t htm
        by_contra hc
        exact hmem (List.any_eq_true.mpr ⟨t, htm, by simpa using hc⟩)
      set db2 : DB := { db with tracking := db.tracking ++ [{ apollo_person_id := c.1, row_id := c.2.1, batch_id := c.2.2 }] } with hdb2
      have hcr : create_webhook_tracking db c.1 c.2.1 c.2.2 = db2 := by
        rw [create_webhook_tracking, if_neg hmem]
      rw [hcr]
      have hnotmem : c.1 ∉ db.tracking.map (fun t => t.apollo_person_id) := by
        intro hcm
        obtain ⟨t, htm, htp⟩ := List.mem_map.mp hcm
        exact hmem (List.any_eq_true.mpr ⟨t, htm, by simpa using htp⟩)
      have hnd2 : (db2.tracking.map (fun t => t.apollo_person_id)).Nodup := by
        rw [hdb2]
        simp only [List.map_append, List.map_cons, List.map_nil]
        rw [List.nodup_append]
        exact ⟨hnd, List.nodup_singleton _, by simpa using hnotmem⟩
      obtain ⟨hnd3, hlook⟩ := ih db2 hnd2
      refine ⟨hnd3, fun pid => ?_⟩
      rw [hlook pid]
      have happ : trackingLookup db2 pid =
          (trackingLookup db pid).or
            (([({ apollo_person_id := c.1, row_id := c.2.1, batch_id := c.2.2 } : TrackingRow)]).find? (fun t => t.apollo_person_id == pid)) := by
        rw [hdb2, trackingLookup, trackingLookup]
        exact List.find?_append
      rw [happ]
      by_cases hpid : c.1 = pid
      · subst hpid
        rw [hnone]
        simp [List.find?_cons]
      · have hskip : (([({ apollo_person_id := c.1, row_id := c.2.1, batch_id := c.2.2 } : TrackingRow)]).find? (fun t => t.apollo_person_id == pid)) = none := by
          simp [List.find?_cons, hpid]
        rw [hskip, List.find?_cons_of_neg _ (by simpa using hpid)]
        cases trackingLookup db pid <;> rfl

theorem handle_single_eq (ps : Option String) (person : ApolloWebhookPerson)
    (db : DB) (now : String) (pid : String) (t : TrackingRow)
    (hid : person.id = some pid) (hp : pid ≠ "")
    (ht : trackingLookup db pid = some t) :
    handle_apollo_webhook { status := ps, people := [person] } db now =
      (1, update_apollo_phone_result
            (mark_webhook_received db pid (some (personDump person)) now).2
            t.row_id (classify_apollo_phones person.phone_numbers).1
            (classify_apollo_phones person.phone_numbers).2
            (some (personDump person)) now) := by
  have htr : truthyStr person.id = true := by rw [hid]; simpa [truthyStr] using hp
  have hfst : (mark_webhook_received db pid (some (personDump person)) now).1 =
      some t.row_id := by
    rw [mark_webhook_received]
    rw [trackingLookup] at ht
    rw [ht]
  rw [handle_apollo_webhook]
  simp only [List.foldl_cons, List.foldl_nil, htr, Bool.true_eq_false, if_false, hid,
    Option.getD_some]
  rw [show (mark_webhook_received db pid (some (personDump person)) now) =
    ((mark_webhook_received db pid (some (personDump person)) now).1,
     (mark_webhook_received db pid (some (personDump person)) now).2) from rfl]
  rw [hfst]
  have htr2 : truthyStr (some pid) = true := by simpa [truthyStr] using hp
  simp [htr2]

/-- C10: a callback entry with a registered identifier whose phone list
classifies to nothing still completes the owning record with null
phones and is counted as processed. -/
theorem c10_empty_classification_completes (person : ApolloWebhookPerson)
    (db : DB) (now : String) (pid : String) (t : TrackingRow)
    (hid : person.id = some pid) (hp : pid ≠ "")
    (ht : trackingLookup db pid = some t)
    (hcl : classify_apollo_phones person.phone_numbers = (none, none)) :
    (handle_apollo_webhook { people := [person] } db now).1 = 1 ∧
    ∀ r ∈ (handle_apollo_webhook { people := [person] } db now).2.rows,
      r.row_id = t.row_id →
      r.apollo_status = "complete" ∧ r.apollo_mobile = none ∧
      r.apollo_direct = none := by
  rw [handle_single_eq none person db now pid t hid hp ht]
  refine ⟨rfl, fun r hr hrid => ?_⟩
  rw [update_apollo_phone_result, DB.updateRows, hcl] at hr
  simp only at hr
  obtain ⟨r0, _hr0m, hr0⟩ := List.mem_map.mp hr
  by_cases h0 : r0.row_id = t.row_id
  · rw [if_pos h0] at hr0
    rw [← hr0]
    exact ⟨rfl, rfl, rfl⟩
  · rw [if_neg h0] at hr0
    rw [← hr0] at hrid
    exact absurd hrid h0

/-- C10 witness: the concrete awaiting record completes with null
phones and the handler reports one processed entry. -/
theorem c10_empty_classification_completes_witness :
    (handle_apollo_webhook c10_payload c10_db "t1").1 = 1 ∧
    ((handle_apollo_webhook c10_payload c10_db "t1").2.rows.getD 0 default).apollo_status =
      "complete" ∧
    ((handle_apollo_webhook c10_payload c10_db "t1").2.rows.getD 0 default).apollo_mobile =
      none ∧
    ((handle_apollo_webhook c10_payload c10_db "t1").2.rows.getD 0 default).apollo_direct =
      none := by
  have h := c10_empty_classification_completes c10_person c10_db "t1" "ext-9"
    { apollo_person_id := "ext-9", row_id := 1 } rfl (by decide) rfl rfl
  have h2 := h.2 ((handle_apollo_webhook c10_payload c10_db "t1").2.rows.getD 0 default)
    (by decide) (by decide)
  exact ⟨h.1, h2.1, h2.2.1, h2.2.2⟩

/-- C1 counterexample: a record already in `timeout` whose callback then
arrives: the correlation lookup succeeds and the handler rewrites the
status to `complete`, so the status IS mutated back from `timeout`. -/
theorem c1_counterexample :
    (c1_db.rows.map (fun r => r.apollo_status)) = ["timeout"] ∧
    (mark_webhook_received c1_db "ext-9" none "t1").1 = some 1 ∧
    ((handle_apollo_webhook c1_payload c1_db "t1").2.rows.map
      (fun r => r.apollo_status)) = ["complete"] ∧
    ("complete" : String) ≠ "timeout" := by
  exact ⟨rfl, rfl, rfl, by simp⟩

/-- C1 amended: a callback processed after the bulk timeout transition
still finds the correlation (the lookup returns the owning row), but
the handler then unconditionally rewrites the owning record's Apollo
status to `complete`, overwriting `timeout`; no guard preserves the
timed-out state. -/
theorem c1_late_callback_overwrites (person : ApolloWebhookPerson)
    (db : DB) (now : String) (pid : String) (t : TrackingRow)
    (hid : person.id = some pid) (hp : pid ≠ "")
    (ht : trackingLookup db pid = some t) :
    (mark_webhook_received db pid (some (personDump person)) now).1 = some t.row_id ∧
    ∀ r ∈ (handle_apollo_webhook { people := [person] } db now).2.rows,
      r.row_id = t.row_id → r.apollo_status = "complete" := by
  have hfst : (mark_webhook_received db pid (some (personDump person)) now).1 =
      some t.row_id := by
    rw [mark_webhook_received]
    rw [trackingLookup] at ht
    rw [ht]
  refine ⟨hfst, fun r hr hrid => ?_⟩
  rw [handle_single_eq none person db now pid t hid hp ht] at hr
  rw [update_apollo_phone_result, DB.updateRows] at hr
  simp only at hr
  obtain ⟨r0, _hr0m, hr0⟩ := List.mem_map.mp hr
  by_cases h0 : r0.row_id = t.row_id
  · rw [if_pos h0] at hr0
    rw [← hr0]
  · rw [if_neg h0] at hr0
    rw [← hr0] at hrid
    exact absurd hrid h0

/-- C1 witness: the concrete timed-out record is found by the lookup
and ends in status `complete` after the late callback. -/
theorem c1_late_callback_overwrites_witness :
    (mark_webhook_received c1_db "ext-9" (some (personDump c1_person)) "t1").1 =
      some 1 ∧
    ((handle_apollo_webhook c1_payload c1_db "t1").2.rows.getD 0 default).apollo_status =
      "complete" := by
  have h := c1_late_callback_overwrites c1_person c1_db "t1" "ext-9"
    { apollo_person_id := "ext-9", row_id := 1 } rfl (by decide) rfl
  exact ⟨h.1, h.2 ((handle_apollo_webhook c1_payload c1_db "t1").2.rows.getD 0 default)
    (by decide) (by decide)⟩

/-- C9 witness: registering `ext-9` twice from an empty store keeps one
tracking row, the one from the first registration. -/
theorem c9_registration_idempotent_witness :
    ((register_all {} [("ext-9", 1, none), ("ext-9", 2, some "b2")]).tracking.map
      (fun t => t.apollo_person_id)).Nodup ∧
    trackingLookup (register_all {} [("ext-9", 1, none), ("ext-9", 2, some "b2")])
      "ext-9" = some { apollo_person_id := "ext-9", row_id := 1, batch_id := none } := by
  have h := c9_registration_idempotent [("ext-9", 1, none), ("ext-9", 2, some "b2")]
    {} (by simp)
  refine ⟨h.1, ?_⟩
  rw [h.2 "ext-9"]
  rfl

theorem rowsMapWithin_refl (A : List Nat) (l : List DBRow) : RowsMapWithin A l l :=
  ⟨id, (List.map_id l).symm, fun _ => rfl, fun _ _ => rfl⟩

theorem rowsMapWithin_trans {A : List Nat} {l1 l2 l3 : List DBRow}
    (h1 : RowsMapWithin A l1 l2) (h2 : RowsMapWithin A l2 l3) :
    RowsMapWithin A l1 l3 := by
  obtain ⟨g, rfl, hgid, hgout⟩ := h1
  obtain ⟨h, rfl, hhid, hhout⟩ := h2
  refine ⟨h ∘ g, List.map_map h g l1, fun r => ?_, fun r hr => ?_⟩
  · simp [hhid, hgid]
  · simp only [Function.comp_apply, hgout r hr]
    exact hhout r hr

theorem rowsMapWithin_mono {A B : List Nat} {l l2 : List DBRow}
    (hAB : ∀ x ∈ A, x ∈ B) (h : RowsMapWithin A l l2) : RowsMapWithin B l l2 := by
  obtain ⟨g, rfl, hgid, hgout⟩ := h
  exact ⟨g, rfl, hgid, fun r hr => hgout r (fun hx => hr (hAB _ hx))⟩

theorem rowsMapWithin_updateRows {A : List Nat} {x : Nat} (f : DBRow → DBRow)
    (hx : x ∈ A) (hf : ∀ r, (f r).row_id = r.row_id) (db : DB) :
    RowsMapWithin A db.rows (db.updateRows x f).rows := by
  refine ⟨fun r => if r.row_id = x then f r else r, rfl, fun r => ?_, fun r hr => ?_⟩
  · by_cases h : r.row_id = x <;> simp [h, hf]
  · have hne : r.row_id ≠ x := fun he => hr (he ▸ hx)
    simp [hne]

theorem rowsFact_preserve {A : List Nat} {pid : Nat} {P : DBRow → Prop}
    {l l2 : List DBRow} (hout : pid ∉ A) (hF : RowsFact pid P l)
    (hmap : RowsMapWithin A l l2) : RowsFact pid P l2 := by
  obtain ⟨g, rfl, hgid, hgout⟩ := hmap
  intro r hr hrid
  obtain ⟨r0, hr0, rfl⟩ := List.mem_map.mp hr
  by_cases h : r0.row_id ∈ A
  · rw [hgid r0] at hrid
    exact absurd (hrid ▸ h) hout
  · rw [hgout r0 h]
    rw [hgout r0 h] at hrid
    exact hF r0 hr0 hrid

theorem update_lusha_result_within {A : List Nat} {x : Nat} (hx : x ∈ A)
    (db : DB) (st : String) (em mo di er ra : Option String) (now : String) :
    RowsMapWithin A db.rows (update_lusha_result db x st em mo di er ra now).rows :=
  rowsMapWithin_updateRows (fun r => { r with lusha_status := st, lusha_email := em, lusha_mobile := mo, lusha_direct := di, lusha_error := er, lusha_raw := ra, updated_at := now }) hx (fun _ => rfl) db

theorem update_apollo_sync_result_within {A : List Nat} {x : Nat} (hx : x ∈ A)
    (db : DB) (st : String) (em pi er ra : Option String) (now : String) :
    RowsMapWithin A db.rows (update_apollo_sync_result db x st em pi er ra now).rows :=
  rowsMapWithin_updateRows (fun r => { r with apollo_status := st, apollo_email := em, apollo_person_id := pi, apollo_error := er, apollo_raw := ra, updated_at := now }) hx (fun _ => rfl) db

theorem create_webhook_tracking_rows (db : DB) (pid : String) (row_id : Nat)
    (batch_id : Option String) :
    (create_webhook_tracking db pid row_id batch_id).rows = db.rows := by
  rw [create_webhook_tracking]
  split <;> rfl

theorem create_webhook_tracking_log (db : DB) (pid : String) (row_id : Nat)
    (batch_id : Option String) :
    (create_webhook_tracking db pid row_id batch_id).batch_log = db.batch_log := by
  rw [create_webhook_tracking]
  split <;> rfl

theorem logWith_map_ne (l : List BatchLogRow) (bid bid2 : String)
    (f : BatchLogRow → BatchLogRow) (hf : ∀ b, (f b).batch_id = b.batch_id)
    (hne : bid2 ≠ bid) :
    (l.map (fun b => if b.batch_id == bid then f b else b)).filter
      (fun b => b.batch_id == bid2) = l.filter (fun b => b.batch_id == bid2) := by
  induction l with
  | nil => rfl
  | cons b t ih =>
    simp only [List.map_cons, List.filter_cons]
    by_cases hb : b.batch_id = bid
    · have h1 : (b.batch_id == bid) = true := by simpa using hb
      have h2 : ((f b).batch_id == bid2) = false := by
        rw [hf b, hb]
        exact beq_eq_false_iff_ne.mpr (fun he => hne he.symm)
      have h3 : (b.batch_id == bid2) = false := by
        rw [hb]
        exact beq_eq_false_iff_ne.mpr (fun he => hne he.symm)
      simp only [h1, if_true, h2, h3, Bool.false_eq_true, if_false]
      exact ih
    · have h1 : (b.batch_id == bid) = false := by simpa using hb
      simp only [h1, Bool.false_eq_true, if_false]
      by_cases hb2 : b.batch_id = bid2
      · have h2 : (b.batch_id == bid2) = true := by simpa using hb2
        simp only [h2, if_true, ih]
      · have h2 : (b.batch_id == bid2) = false := by simpa using hb2
        simp only [h2, Bool.false_eq_true, if_false, ih]

theorem logWith_map_eq (l : List BatchLogRow) (bid : String)
    (f : BatchLogRow → BatchLogRow) (hf : ∀ b, (f b).batch_id = b.batch_id) :
    (l.map (fun b => if b.batch_id == bid then f b else b)).filter
      (fun b => b.batch_id == bid) = (l.filter (fun b => b.batch_id == bid)).map f := by
  induction l with
  | nil => rfl
  | cons b t ih =>
    simp only [List.map_cons, List.filter_cons]
    by_cases hb : b.batch_id = bid
    · have h1 : (b.batch_id == bid) = true := by simpa using hb
      have h2 : ((f b).batch_id == bid) = true := by simp [hf b, hb]
      simp only [h1, if_true, h2, List.map_cons, ih]
    · have h1 : (b.batch_id == bid) = false := by simpa using hb
      simp only [h1, Bool.false_eq_true, if_false, ih]

theorem _save_contact_data_effect {row_id : Nat} {data : LushaContactData} {db : DB}
    {now : String} {db1 : DB} (h : _save_contact_data row_id data db now = Except.ok db1) :
    db1.batch_log = db.batch_log ∧ RowsMapWithin [row_id] db.rows db1.rows := by
  rw [_save_contact_data] at h
  cases hcl : classify_lusha_phones data.phone_numbers with
  | error e => rw [hcl] at h; exact absurd h (by simp)
  | ok phones =>
    rw [hcl] at h
    simp only [Except.ok.injEq] at h
    subst h
    exact ⟨rfl, update_lusha_result_within (List.mem_singleton.mpr rfl) db _ _ _ _ _ _ _⟩

theorem _save_single_result_effect {row_id : Nat} {response : LushaPersonResponse}
    {db : DB} {now : String} {db1 : DB}
    (h : _save_single_result row_id response db now = Except.ok db1) :
    db1.batch_log = db.batch_log ∧ RowsMapWithin [row_id] db.rows db1.rows := by
  rw [_save_single_result] at h
  split at h
  · simp only [Except.ok.injEq] at h
    subst h
    exact ⟨rfl, update_lusha_result_within (List.mem_singleton.mpr rfl) db _ _ _ _ _ _ _⟩
  · split at h
    · simp only [Except.ok.injEq] at h
      subst h
      exact ⟨rfl, update_lusha_result_within (List.mem_singleton.mpr rfl) db _ _ _ _ _ _ _⟩
    · split at h
      · simp only [Except.ok.injEq] at h
        subst h
        exact ⟨rfl, update_lusha_result_within (List.mem_singleton.mpr rfl) db _ _ _ _ _ _ _⟩
      · exact _save_contact_data_effect h

theorem _save_bulk_results_effect :
    ∀ (persons : List PersonInput) (results : List (String × LushaBulkContact))
      (db : DB) (now : String) (n : Nat) (db1 : DB),
    _save_bulk_results persons results db now = Except.ok (n, db1) →
    db1.batch_log = db.batch_log ∧
    RowsMapWithin (persons.map (fun p => p.row_id)) db.rows db1.rows := by
  intro persons
  induction persons with
  | nil =>
    intro results db now n db1 h
    simp only [_save_bulk_results, Except.ok.injEq, Prod.mk.injEq] at h
    rw [← h.2]
    exact ⟨rfl, rowsMapWithin_refl _ _⟩
  | cons p t ih =>
    intro results db now n db1 h
    rw [_save_bulk_results] at h
    have hmem : p.row_id ∈ (p :: t).map (fun q => q.row_id) := by simp
    have hsub : ∀ x ∈ t.map (fun q => q.row_id), x ∈ (p :: t).map (fun q => q.row_id) := by
      intro x hx
      simp only [List.map_cons, List.mem_cons]
      exact Or.inr hx
    split at h
    · obtain ⟨hlog, hrows⟩ := ih _ _ _ _ _ h
      exact ⟨hlog, rowsMapWithin_trans
        (update_lusha_result_within hmem db _ _ _ _ _ _ _)
        (rowsMapWithin_mono hsub hrows)⟩
    · split at h
      · obtain ⟨hlog, hrows⟩ := ih _ _ _ _ _ h
        exact ⟨hlog, rowsMapWithin_trans
          (update_lusha_result_within hmem db _ _ _ _ _ _ _)
          (rowsMapWithin_mono hsub hrows)⟩
      · split at h
        · obtain ⟨hlog, hrows⟩ := ih _ _ _ _ _ h
          exact ⟨hlog, rowsMapWithin_trans
            (update_lusha_result_within hmem db _ _ _ _ _ _ _)
            (rowsMapWithin_mono hsub hrows)⟩
        · split at h
          · exact absurd h (by simp)
          · rename_i db2 hsv
            split at h
            · exact absurd h (by simp)
            · rename_i st hrec
              simp only [Except.ok.injEq, Prod.mk.injEq] at h
              obtain ⟨hsc_log, hsc_rows⟩ := _save_contact_data_effect hsv
              obtain ⟨hr_log, hr_rows⟩ := ih _ _ _ _ _ hrec
              rw [← h.2]
              refine ⟨by rw [hr_log, hsc_log], ?_⟩
              refine rowsMapWithin_trans
                (rowsMapWithin_mono (fun x hx => ?_) hsc_rows)
                (rowsMapWithin_mono hsub hr_rows)
              simp only [List.mem_singleton] at hx
              subst hx
              exact hmem

theorem log_batch_rows (db : DB) (api bid : String) (ids : List Nat)
    (st : String) (hs : Option Nat) (er : Option String) :
    (log_batch db api bid ids st hs er).rows = db.rows := rfl

theorem log_batch_batch_log (db : DB) (api bid : String) (ids : List Nat)
    (st : String) (hs : Option Nat) (er : Option String) :
    (log_batch db api bid ids st hs er).batch_log =
      db.batch_log ++ [{ api := api, batch_id := bid, row_ids := ids, status := st, http_status := hs, error := er }] := rfl

theorem update_batch_status_rows (db : DB) (bid st : String) (hs : Option Nat)
    (er : Option String) (now : String) :
    (update_batch_status db bid st hs er now).rows = db.rows := rfl

theorem update_batch_status_batch_log (db : DB) (bid st : String) (hs : Option Nat)
    (er : Option String) (now : String) :
    (update_batch_status db bid st hs er now).batch_log =
      db.batch_log.map (fun b => if b.batch_id == bid then { b with status := st, response_at := some now, http_status := hs, error := er } else b) := rfl

theorem lusha_err_fold_log (msg now : String) :
    ∀ (persons : List PersonInput) (db : DB),
    (persons.foldl (fun d p => update_lusha_result d p.row_id "error" none none none
      (some msg) none now) db).batch_log = db.batch_log := by
  intro persons
  induction persons with
  | nil => intro db; rfl
  | cons p t ih =>
    intro db
    simp only [List.foldl_cons]
    exact ih _

theorem lusha_err_fold_within (msg now : String) :
    ∀ (persons : List PersonInput) (db : DB),
    RowsMapWithin (persons.map (fun p => p.row_id)) db.rows
      ((persons.foldl (fun d p => update_lusha_result d p.row_id "error" none none none
        (some msg) none now) db)).rows := by
  intro persons
  induction persons with
  | nil => intro db; exact rowsMapWithin_refl _ _
  | cons p t ih =>
    intro db
    simp only [List.foldl_cons]
    have hmem : p.row_id ∈ (p :: t).map (fun q => q.row_id) := by simp
    have hsub : ∀ x ∈ t.map (fun q => q.row_id), x ∈ (p :: t).map (fun q => q.row_id) := by
      intro x hx
      simp only [List.map_cons, List.mem_cons]
      exact Or.inr hx
    exact rowsMapWithin_trans (update_lusha_result_within hmem db _ _ _ _ _ _ _)
      (rowsMapWithin_mono hsub (ih _))

theorem lusha_err_update_fact (pid q : Nat) (db : DB) (msg now : String)
    (h : pid = q ∨ RowsFact pid (lushaErrFact msg) db.rows) :
    RowsFact pid (lushaErrFact msg)
      (update_lusha_result db q "error" none none none (some msg) none now).rows := by
  intro r hr hrid
  rw [update_lusha_result, DB.updateRows] at hr
  obtain ⟨r0, hr0, rfl⟩ := List.mem_map.mp hr
  by_cases hq : r0.row_id = q
  · rw [if_pos hq]
    exact ⟨rfl, rfl⟩
  · rw [if_neg hq] at hrid ⊢
    rcases h with h | h
    · exact absurd (hrid.trans h) hq
    · exact h r0 hr0 hrid

theorem lusha_err_fold_fact (msg now : String) :
    ∀ (persons : List PersonInput) (db : DB) (pid : Nat),
    (pid ∈ persons.map (fun p => p.row_id) ∨ RowsFact pid (lushaErrFact msg) db.rows) →
    RowsFact pid (lushaErrFact msg)
      ((persons.foldl (fun d p => update_lusha_result d p.row_id "error" none none none
        (some msg) none now) db)).rows := by
  intro persons
  induction persons with
  | nil =>
    intro db pid h
    rcases h with h | h
    · simp at h
    · exact h
  | cons p t ih =>
    intro db pid h
    simp only [List.foldl_cons]
    apply ih
    rcases h with h | h
    · simp only [List.map_cons, List.mem_cons] at h
      rcases h with h | h
      · exact Or.inr (lusha_err_update_fact pid p.row_id db msg now (Or.inl h))
      · exact Or.inl h
    · exact Or.inr (lusha_err_update_fact pid p.row_id db msg now (Or.inr h))

theorem lusha_err_path_facts (persons : List PersonInput) (bid : String) (db : DB)
    (now msg : String) :
    (∀ p ∈ persons, RowsFact p.row_id (lushaErrFact msg)
      ((persons.foldl (fun d p => update_lusha_result d p.row_id "error" none none none
        (some msg) none now)
        (update_batch_status (log_batch db "lusha" bid (persons.map (fun p => p.row_id))
          "submitted" none none) bid "error" none (some msg) now))).rows) ∧
    (logWith db bid = [] →
      logWith ((persons.foldl (fun d p => update_lusha_result d p.row_id "error" none none
        none (some msg) none now)
        (update_batch_status (log_batch db "lusha" bid (persons.map (fun p => p.row_id))
          "submitted" none none) bid "error" none (some msg) now))) bid =
        [errLogEntry "lusha" bid (persons.map (fun p => p.row_id)) msg now]) := by
  constructor
  · intro p hp
    exact lusha_err_fold_fact msg now persons _ p.row_id
      (Or.inl (List.mem_map.mpr ⟨p, hp, rfl⟩))
  · intro hfresh
    have hfresh2 : db.batch_log.filter (fun b => b.batch_id == bid) = [] := hfresh
    have h1 : ((persons.foldl (fun d p => update_lusha_result d p.row_id "error" none none
        none (some msg) none now)
        (update_batch_status (log_batch db "lusha" bid (persons.map (fun p => p.row_id))
          "submitted" none none) bid "error" none (some msg) now))).batch_log =
        ((db.batch_log ++ ([{ api := "lusha", batch_id := bid, row_ids := persons.map (fun p => p.row_id), status := "submitted", http_status := none, error := none }] : List BatchLogRow)).map
          (fun b : BatchLogRow => if b.batch_id == bid then ({ b with status := "error", response_at := some now, http_status := none, error := some msg } : BatchLogRow) else b)) := by
      rw [lusha_err_fold_log]
      rfl
    rw [logWith, h1, logWith_map_eq _ bid (fun b => { b with status := "error", response_at := some now, http_status := none, error := some msg }) (fun b => rfl), List.filter_append, hfresh2]
    simp only [List.nil_append, List.filter_cons, beq_self_eq_true, if_true,
      List.filter_nil, List.map_cons, List.map_nil]
    rfl

theorem lusha_enrich_fail_eq (persons : List PersonInput) (bid : String)
    (o : LushaRemoteOracle) (db : DB) (now msg : String)
    (hf : lushaOracleFails persons o msg) :
    lusha_enrich_and_save persons bid o db now =
      (Except.error msg,
       persons.foldl (fun d p => update_lusha_result d p.row_id "error" none none none
         (some msg) none now)
         (update_batch_status (log_batch db "lusha" bid (persons.map (fun p => p.row_id))
           "submitted" none none) bid "error" none (some msg) now)) := by
  match persons with
  | [] =>
    simp only [lushaOracleFails] at hf
    simp only [lusha_enrich_and_save, hf]
  | [p] =>
    simp only [lushaOracleFails] at hf
    simp only [lusha_enrich_and_save, hf]
  | p :: q :: tl =>
    simp only [lushaOracleFails] at hf
    simp only [lusha_enrich_and_save, hf]

theorem lusha_enrich_fail (persons : List PersonInput) (bid : String)
    (o : LushaRemoteOracle) (db : DB) (now msg : String)
    (hf : lushaOracleFails persons o msg) :
    (lusha_enrich_and_save persons bid o db now).1 = Except.error msg ∧
    (∀ p ∈ persons, RowsFact p.row_id (lushaErrFact msg)
      (lusha_enrich_and_save persons bid o db now).2.rows) ∧
    (logWith db bid = [] →
      logWith (lusha_enrich_and_save persons bid o db now).2 bid =
        [errLogEntry "lusha" bid (persons.map (fun p => p.row_id)) msg now]) := by
  rw [lusha_enrich_fail_eq persons bid o db now msg hf]
  exact ⟨rfl, (lusha_err_path_facts persons bid db now msg).1,
    (lusha_err_path_facts persons bid db now msg).2⟩

theorem lusha_err_path_log (persons : List PersonInput) (bid : String) (db : DB)
    (now msg : String) :
    ((persons.foldl (fun d p => update_lusha_result d p.row_id "error" none none
        none (some msg) none now)
        (update_batch_status (log_batch db "lusha" bid (persons.map (fun p => p.row_id))
          "submitted" none none) bid "error" none (some msg) now))).batch_log =
      ((db.batch_log ++ ([{ api := "lusha", batch_id := bid, row_ids := persons.map (fun p => p.row_id), status := "submitted", http_status := none, error := none }] : List BatchLogRow)).map
        (fun b : BatchLogRow => if b.batch_id == bid then ({ b with status := "error", response_at := some now, http_status := none, error := some msg } : BatchLogRow) else b)) := by
  rw [lusha_err_fold_log]
  rfl

theorem lusha_err_path_within (persons : List PersonInput) (bid : String) (db : DB)
    (now msg : String) :
    RowsMapWithin (persons.map (fun p => p.row_id)) db.rows
      ((persons.foldl (fun d p => update_lusha_result d p.row_id "error" none none
        none (some msg) none now)
        (update_batch_status (log_batch db "lusha" bid (persons.map (fun p => p.row_id))
          "submitted" none none) bid "error" none (some msg) now))).rows :=
  lusha_err_fold_within msg now persons _

theorem lusha_enrich_effect (persons : List PersonInput) (bid : String)
    (o : LushaRemoteOracle) (db : DB) (now : String) :
    ∃ f : BatchLogRow → BatchLogRow,
      (∀ b, (f b).batch_id = b.batch_id) ∧
      (lusha_enrich_and_save persons bid o db now).2.batch_log =
        ((db.batch_log ++ ([{ api := "lusha", batch_id := bid, row_ids := persons.map (fun p => p.row_id), status := "submitted", http_status := none, error := none }] : List BatchLogRow)).map
          (fun b : BatchLogRow => if b.batch_id == bid then f b else b)) ∧
      RowsMapWithin (persons.map (fun p => p.row_id)) db.rows
        (lusha_enrich_and_save persons bid o db now).2.rows := by
  have herr : ∀ msg : String, lushaOracleFails persons o msg →
      ∃ f : BatchLogRow → BatchLogRow,
      (∀ b, (f b).batch_id = b.batch_id) ∧
      (lusha_enrich_and_save persons bid o db now).2.batch_log =
        ((db.batch_log ++ ([{ api := "lusha", batch_id := bid, row_ids := persons.map (fun p => p.row_id), status := "submitted", http_status := none, error := none }] : List BatchLogRow)).map
          (fun b : BatchLogRow => if b.batch_id == bid then f b else b)) ∧
      RowsMapWithin (persons.map (fun p => p.row_id)) db.rows
        (lusha_enrich_and_save persons bid o db now).2.rows := by
    intro msg hf
    rw [lusha_enrich_fail_eq persons bid o db now msg hf]
    exact ⟨fun b => { b with status := "error", response_at := some now, http_status := none, error := some msg },
      fun b => rfl, lusha_err_path_log persons bid db now msg,
      lusha_err_path_within persons bid db now msg⟩
  match persons with
  | [] =>
    cases hb : o.bulk with
    | error e => exact herr e (by simp only [lushaOracleFails]; exact hb)
    | ok results =>
      have hres : lusha_enrich_and_save [] bid o db now =
          (Except.ok 0, update_batch_status (log_batch db "lusha" bid
            (([] : List PersonInput).map (fun p => p.row_id)) "submitted" none none)
            bid "complete" none none now) := by
        simp only [lusha_enrich_and_save, hb, _save_bulk_results]
      rw [hres]
      exact ⟨fun b => { b with status := "complete", response_at := some now, http_status := none, error := none },
        fun b => rfl, rfl, rowsMapWithin_refl _ _⟩
  | [p] =>
    cases hs : o.single with
    | error e => exact herr e (by simp only [lushaOracleFails]; exact hs)
    | ok result =>
      cases hsv : _save_single_result p.row_id result (log_batch db "lusha" bid
          (([p] : List PersonInput).map (fun q => q.row_id)) "submitted" none none) now with
      | error e =>
        have hres : lusha_enrich_and_save [p] bid o db now =
            (Except.error e,
             ([p] : List PersonInput).foldl (fun d q => update_lusha_result d q.row_id
               "error" none none none (some e) none now)
               (update_batch_status (log_batch db "lusha" bid
                 (([p] : List PersonInput).map (fun q => q.row_id)) "submitted" none none)
                 bid "error" none (some e) now)) := by
          simp only [lusha_enrich_and_save, hs, hsv]
        rw [hres]
        exact ⟨fun b => { b with status := "error", response_at := some now, http_status := none, error := some e },
          fun b => rfl, lusha_err_path_log [p] bid db now e,
          lusha_err_path_within [p] bid db now e⟩
      | ok db1 =>
        have hres : (lusha_enrich_and_save [p] bid o db now).2 =
            update_batch_status db1 bid "complete" none none now := by
          simp only [lusha_enrich_and_save, hs, hsv]
        rw [hres]
        obtain ⟨hlog1, hwithin⟩ := _save_single_result_effect hsv
        refine ⟨fun b => { b with status := "complete", response_at := some now, http_status := none, error := none },
          fun b => rfl, ?_, ?_⟩
        · rw [update_batch_status_batch_log, hlog1]
          rfl
        · rw [update_batch_status_rows]
          exact rowsMapWithin_mono (by intro x hx; simpa using hx) hwithin
  | p :: q :: tl =>
    cases hb : o.bulk with
    | error e => exact herr e (by simp only [lushaOracleFails]; exact hb)
    | ok results =>
      cases hsv : _save_bulk_results (p :: q :: tl) results (log_batch db "lusha" bid
          ((p :: q :: tl).map (fun x => x.row_id)) "submitted" none none) now with
      | error e =>
        have hres : lusha_enrich_and_save (p :: q :: tl) bid o db now =
            (Except.error e,
             (p :: q :: tl).foldl (fun d x => update_lusha_result d x.row_id
               "error" none none none (some e) none now)
               (update_batch_status (log_batch db "lusha" bid
                 ((p :: q :: tl).map (fun x => x.row_id)) "submitted" none none)
                 bid "error" none (some e) now)) := by
          simp only [lusha_enrich_and_save, hb, hsv]
        rw [hres]
        exact ⟨fun b => { b with status := "error", response_at := some now, http_status := none, error := some e },
          fun b => rfl, lusha_err_path_log (p :: q :: tl) bid db now e,
          lusha_err_path_within (p :: q :: tl) bid db now e⟩
      | ok st =>
        have hres : (lusha_enrich_and_save (p :: q :: tl) bid o db now).2 =
            update_batch_status st.2 bid "complete" none none now := by
          simp only [lusha_enrich_and_save, hb, hsv]
        rw [hres]
        obtain ⟨hlog1, hwithin⟩ := _save_bulk_results_effect (p :: q :: tl) results _ now
          st.1 st.2 (by rw [hsv])
        refine ⟨fun b => { b with status := "complete", response_at := some now, http_status := none, error := none },
          fun b => rfl, ?_, ?_⟩
        · rw [update_batch_status_batch_log, hlog1]
          rfl
        · rw [update_batch_status_rows]
          exact hwithin

theorem lusha_enrich_len (persons : List PersonInput) (bid : String)
    (o : LushaRemoteOracle) (db : DB) (now : String) :
    (lusha_enrich_and_save persons bid o db now).2.batch_log.length =
      db.batch_log.length + 1 := by
  obtain ⟨f, _hf, hlog, _⟩ := lusha_enrich_effect persons bid o db now
  rw [hlog]
  simp

theorem lusha_enrich_frame (persons : List PersonInput) (bid : String)
    (o : LushaRemoteOracle) (db : DB) (now : String) (bid2 : String)
    (hne : bid2 ≠ bid) :
    logWith (lusha_enrich_and_save persons bid o db now).2 bid2 = logWith db bid2 := by
  obtain ⟨f, hf, hlog, _⟩ := lusha_enrich_effect persons bid o db now
  rw [logWith, hlog, logWith_map_ne _ _ _ f hf hne, List.filter_append]
  have hone : (([{ api := "lusha", batch_id := bid, row_ids := persons.map (fun p => p.row_id), status := "submitted", http_status := none, error := none }] : List BatchLogRow)).filter (fun b => b.batch_id == bid2) = [] := by
    simp only [List.filter_cons, List.filter_nil]
    rw [if_neg]
    simp only [beq_iff_eq]
    exact fun he => hne he.symm
  rw [hone, List.append_nil]
  rfl

theorem lusha_enrich_rows_within (persons : List PersonInput) (bid : String)
    (o : LushaRemoteOracle) (db : DB) (now : String) :
    RowsMapWithin (persons.map (fun p => p.row_id)) db.rows
      (lusha_enrich_and_save persons bid o db now).2.rows :=
  (lusha_enrich_effect persons bid o db now).choose_spec.2.2

section BatchLoopLemmas

variable {α : Type} (client : List PersonInput → String → α → DB → String →
  Except String Nat × DB)
variable (batch_ids : Nat → String) (oracles : Nat → α) (now : String)

theorem batch_step_snd (c : List PersonInput) (i : Nat) (st : Nat × DB) :
    ((match client c (batch_ids i) (oracles i) st.2 now with
      | (Except.ok count, db1) => (st.1 + count, db1)
      | (Except.error _, db1) => (st.1, db1)) : Nat × DB).2 =
    (client c (batch_ids i) (oracles i) st.2 now).2 := by
  rcases h : client c (batch_ids i) (oracles i) st.2 now with ⟨res, db1⟩
  cases res <;> simp

theorem batch_loop_len
    (Hlen : ∀ persons bid o (db : DB) (now2 : String),
      (client persons bid o db now2).2.batch_log.length = db.batch_log.length + 1) :
    ∀ (cl : List (List PersonInput)) (k : Nat) (acc : Nat × DB),
    ((cl.enumFrom k).foldl (fun (st : Nat × DB) ib =>
      match client ib.2 (batch_ids ib.1) (oracles ib.1) st.2 now with
      | (Except.ok count, db1) => (st.1 + count, db1)
      | (Except.error _, db1) => (st.1, db1)) acc).2.batch_log.length =
      acc.2.batch_log.length + cl.length := by
  intro cl
  induction cl with
  | nil => intro k acc; simp
  | cons c t ih =>
    intro k acc
    rw [show List.enumFrom k (c :: t) = (k, c) :: List.enumFrom (k + 1) t from rfl,
        List.foldl_cons, ih (k + 1) _]
    rw [batch_step_snd client batch_ids oracles now c k acc, Hlen c (batch_ids k)
      (oracles k) acc.2 now]
    simp only [List.length_cons]
    omega

theorem batch_loop_rows_preserve
    (Hrows : ∀ persons bid o (db : DB) (now2 : String),
      RowsMapWithin (persons.map (fun p => p.row_id)) db.rows
        (client persons bid o db now2).2.rows) :
    ∀ (cl : List (List PersonInput)) (k : Nat) (acc : Nat × DB) (pid : Nat)
      (P : DBRow → Prop),
    RowsFact pid P acc.2.rows →
    (∀ j (hj : j < cl.length), pid ∉ (cl.get ⟨j, hj⟩).map (fun p => p.row_id)) →
    RowsFact pid P ((cl.enumFrom k).foldl (fun (st : Nat × DB) ib =>
      match client ib.2 (batch_ids ib.1) (oracles ib.1) st.2 now with
      | (Except.ok count, db1) => (st.1 + count, db1)
      | (Except.error _, db1) => (st.1, db1)) acc).2.rows := by
  intro cl
  induction cl with
  | nil => intro k acc pid P hF _; exact hF
  | cons c t ih =>
    intro k acc pid P hF hout
    rw [show List.enumFrom k (c :: t) = (k, c) :: List.enumFrom (k + 1) t from rfl,
        List.foldl_cons]
    apply ih (k + 1) _ pid P
    · have hmap : RowsMapWithin (c.map (fun p => p.row_id)) acc.2.rows
          ((match client c (batch_ids k) (oracles k) acc.2 now with
            | (Except.ok count, db1) => (acc.1 + count, db1)
            | (Except.error _, db1) => (acc.1, db1)) : Nat × DB).2.rows := by
        rw [batch_step_snd client batch_ids oracles now c k acc]
        exact Hrows c (batch_ids k) (oracles k) acc.2 now
      exact rowsFact_preserve (hout 0 (by simp)) hF hmap
    · intro j hj
      exact hout (j + 1) (by simpa using Nat.succ_lt_succ hj)

theorem batch_loop_log_frame
    (Hframe : ∀ persons bid o (db : DB) (now2 : String) (bid2 : String),
      bid2 ≠ bid → logWith (client persons bid o db now2).2 bid2 = logWith db bid2) :
    ∀ (cl : List (List PersonInput)) (k : Nat) (acc : Nat × DB) (bid0 : String),
    (∀ j, j < cl.length → batch_ids (k + j) ≠ bid0) →
    logWith ((cl.enumFrom k).foldl (fun (st : Nat × DB) ib =>
      match client ib.2 (batch_ids ib.1) (oracles ib.1) st.2 now with
      | (Except.ok count, db1) => (st.1 + count, db1)
      | (Except.error _, db1) => (st.1, db1)) acc).2 bid0 = logWith acc.2 bid0 := by
  intro cl
  induction cl with
  | nil => intro k acc bid0 _; rfl
  | cons c t ih =>
    intro k acc bid0 hne
    rw [show List.enumFrom k (c :: t) = (k, c) :: List.enumFrom (k + 1) t from rfl,
        List.foldl_cons]
    rw [ih (k + 1) _ bid0 (fun j hj => by
      have := hne (j + 1) (by simpa using Nat.succ_lt_succ hj)
      rwa [show k + (j + 1) = (k + 1) + j from by omega] at this)]
    have hne0 : bid0 ≠ batch_ids k := by
      have := hne 0 (by simp)
      rw [Nat.add_zero] at this
      exact fun he => this he.symm
    rw [show ((match client c (batch_ids k) (oracles k) acc.2 now with
      | (Except.ok count, db1) => (acc.1 + count, db1)
      | (Except.error _, db1) => (acc.1, db1)) : Nat × DB).2 =
      (client c (batch_ids k) (oracles k) acc.2 now).2 from
        batch_step_snd client batch_ids oracles now c k acc]
    exact Hframe c (batch_ids k) (oracles k) acc.2 now bid0 hne0

end BatchLoopLemmas

section BatchLoopFail

variable {α : Type} (client : List PersonInput → String → α → DB → String →
  Except String Nat × DB)
variable (batch_ids : Nat → String) (oracles : Nat → α) (now : String)

theorem batch_loop_fail
    (fails : List PersonInput → α → String → Prop) (Fact : String → DBRow → Prop)
    (api : String)
    (Hrows : ∀ persons bid o (db : DB) (now2 : String),
      RowsMapWithin (persons.map (fun p => p.row_id)) db.rows
        (client persons bid o db now2).2.rows)
    (Hlen : ∀ persons bid o (db : DB) (now2 : String),
      (client persons bid o db now2).2.batch_log.length = db.batch_log.length + 1)
    (Hframe : ∀ persons bid o (db : DB) (now2 : String) (bid2 : String),
      bid2 ≠ bid → logWith (client persons bid o db now2).2 bid2 = logWith db bid2)
    (Hfail : ∀ persons bid o (db : DB) (now2 : String) (msg : String),
      fails persons o msg →
      (∀ p ∈ persons, RowsFact p.row_id (Fact msg) (client persons bid o db now2).2.rows) ∧
      (logWith db bid = [] → logWith (client persons bid o db now2).2 bid =
        [errLogEntry api bid (persons.map (fun p => p.row_id)) msg now2])) :
    ∀ (cl : List (List PersonInput)) (k : Nat) (acc : Nat × DB) (i : Nat)
      (hi : i < cl.length) (msg : String),
    fails (cl.get ⟨i, hi⟩) (oracles (k + i)) msg →
    (∀ p ∈ cl.get ⟨i, hi⟩, ∀ j (hj : j < cl.length), j ≠ i →
      p.row_id ∉ (cl.get ⟨j, hj⟩).map (fun q => q.row_id)) →
    (∀ j1 j2, j1 < cl.length → j2 < cl.length →
      batch_ids (k + j1) = batch_ids (k + j2) → j1 = j2) →
    (∀ j, j < cl.length → logWith acc.2 (batch_ids (k + j)) = []) →
    (∀ p ∈ cl.get ⟨i, hi⟩, RowsFact p.row_id (Fact msg)
      ((cl.enumFrom k).foldl (fun (st : Nat × DB) ib =>
        match client ib.2 (batch_ids ib.1) (oracles ib.1) st.2 now with
        | (Except.ok count, db1) => (st.1 + count, db1)
        | (Except.error _, db1) => (st.1, db1)) acc).2.rows) ∧
    logWith ((cl.enumFrom k).foldl (fun (st : Nat × DB) ib =>
        match client ib.2 (batch_ids ib.1) (oracles ib.1) st.2 now with
        | (Except.ok count, db1) => (st.1 + count, db1)
        | (Except.error _, db1) => (st.1, db1)) acc).2 (batch_ids (k + i)) =
      [errLogEntry api (batch_ids (k + i)) ((cl.get ⟨i, hi⟩).map (fun q => q.row_id))
        msg now] ∧
    ((cl.enumFrom k).foldl (fun (st : Nat × DB) ib =>
        match client ib.2 (batch_ids ib.1) (oracles ib.1) st.2 now with
        | (Except.ok count, db1) => (st.1 + count, db1)
        | (Except.error _, db1) => (st.1, db1)) acc).2.batch_log.length =
      acc.2.batch_log.length + cl.length := by
  intro cl
  induction cl with
  | nil =>
    intro k acc i hi
    exact absurd hi (by simp)
  | cons c t ih =>
    intro k acc i hi msg hfl hdisj hinj hfresh
    have hstep : ((match client c (batch_ids k) (oracles k) acc.2 now with
        | (Except.ok count, db1) => (acc.1 + count, db1)
        | (Except.error _, db1) => (acc.1, db1)) : Nat × DB).2 =
        (client c (batch_ids k) (oracles k) acc.2 now).2 :=
      batch_step_snd client batch_ids oracles now c k acc
    rw [show List.enumFrom k (c :: t) = (k, c) :: List.enumFrom (k + 1) t from rfl,
        List.foldl_cons]
    cases i with
    | zero =>
      simp only [Nat.add_zero] at hfl ⊢
      have h0 := Hfail c (batch_ids k) (oracles k) acc.2 now msg hfl
      refine ⟨?_, ?_, ?_⟩
      · intro p hp
        apply batch_loop_rows_preserve client batch_ids oracles now Hrows t (k + 1) _
          p.row_id (Fact msg)
        · rw [hstep]
          exact h0.1 p hp
        · intro j hj
          exact hdisj p hp (j + 1) (by simpa using Nat.succ_lt_succ hj)
            (Nat.succ_ne_zero j)
      · have hne1 : ∀ j2, j2 < t.length → batch_ids ((k + 1) + j2) ≠ batch_ids k := by
          intro j2 hj2 he
          have := hinj (j2 + 1) 0 (by simpa using Nat.succ_lt_succ hj2) (by simp) (by
            rw [Nat.add_zero]
            rwa [show k + (j2 + 1) = (k + 1) + j2 from by omega])
          exact Nat.succ_ne_zero j2 this
        rw [batch_loop_log_frame client batch_ids oracles now Hframe t (k + 1) _
          (batch_ids k) hne1, hstep]
        exact h0.2 (hfresh 0 (by simp))
      · rw [batch_loop_len client batch_ids oracles now Hlen t (k + 1) _, hstep,
          Hlen c (batch_ids k) (oracles k) acc.2 now]
        simp only [List.length_cons]
        omega
    | succ j =>
      have hj : j < t.length := by simpa using Nat.lt_of_succ_lt_succ hi
      have hget : (c :: t).get ⟨j + 1, hi⟩ = t.get ⟨j, hj⟩ := rfl
      have hidx : k + (j + 1) = (k + 1) + j := by omega
      have hfl' : fails (t.get ⟨j, hj⟩) (oracles ((k + 1) + j)) msg := by
        rw [← hidx, ← hget]
        exact hfl
      have hdisj' : ∀ p ∈ t.get ⟨j, hj⟩, ∀ j2 (hj2 : j2 < t.length), j2 ≠ j →
          p.row_id ∉ (t.get ⟨j2, hj2⟩).map (fun q => q.row_id) := by
        intro p hp j2 hj2 hne
        have := hdisj p (by rw [hget]; exact hp) (j2 + 1)
          (by simpa using Nat.succ_lt_succ hj2) (by omega)
        exact this
      have hinj' : ∀ j1 j2, j1 < t.length → j2 < t.length →
          batch_ids ((k + 1) + j1) = batch_ids ((k + 1) + j2) → j1 = j2 := by
        intro j1 j2 hj1 hj2 he
        have := hinj (j1 + 1) (j2 + 1) (by simpa using Nat.succ_lt_succ hj1)
          (by simpa using Nat.succ_lt_succ hj2) (by
            rwa [show k + (j1 + 1) = (k + 1) + j1 from by omega,
                 show k + (j2 + 1) = (k + 1) + j2 from by omega])
        omega
      have hfresh' : ∀ j2, j2 < t.length →
          logWith ((match client c (batch_ids k) (oracles k) acc.2 now with
            | (Except.ok count, db1) => (acc.1 + count, db1)
            | (Except.error _, db1) => (acc.1, db1)) : Nat × DB).2
            (batch_ids ((k + 1) + j2)) = [] := by
        intro j2 hj2
        have hne : batch_ids ((k + 1) + j2) ≠ batch_ids k := by
          intro he
          have := hinj (j2 + 1) 0 (by simpa using Nat.succ_lt_succ hj2) (by simp) (by
            rw [Nat.add_zero]
            rwa [show k + (j2 + 1) = (k + 1) + j2 from by omega])
          exact Nat.succ_ne_zero j2 this
        rw [hstep, Hframe c (batch_ids k) (oracles k) acc.2 now _ hne]
        have := hfresh (j2 + 1) (by simpa using Nat.succ_lt_succ hj2)
        rwa [show k + (j2 + 1) = (k + 1) + j2 from by omega] at this
      obtain ⟨m1, m2, m3⟩ := ih (k + 1) _ j hj msg hfl' hdisj' hinj' hfresh'
      refine ⟨?_, ?_, ?_⟩
      · intro p hp
        exact m1 p (by rw [hget] at hp; exact hp)
      · rw [hget, hidx]
        exact m2
      · rw [m3, hstep, Hlen c (batch_ids k) (oracles k) acc.2 now]
        simp only [List.length_cons]
        omega

end BatchLoopFail

theorem _chunked_join_aux {β : Type} :
    ∀ (len : Nat) (l : List β), l.length ≤ len → ∀ n, n ≠ 0 →
    (_chunked l n).flatten = l := by
  intro len
  induction len with
  | zero =>
    intro l hl n hn
    have hnil : l = [] := by
      cases l with
      | nil => rfl
      | cons a t => simp at hl
    subst hnil
    rw [_chunked, dif_neg hn]
    simp
  | succ len ih =>
    intro l hl n hn
    rw [_chunked, dif_neg hn]
    by_cases he : l.isEmpty
    · rw [dif_pos he]
      have : l = [] := by
        cases l with
        | nil => rfl
        | cons a t => simp at he
      rw [this]
      rfl
    · rw [dif_neg he]
      have hlen : (l.drop n).length ≤ len := by
        rw [List.length_drop]
        have hpos : 0 < l.length := by
          cases l with
          | nil => simp at he
          | cons a t => simp
        omega
      rw [List.flatten_cons, ih (l.drop n) hlen n hn, List.take_append_drop]

theorem _chunked_join {β : Type} (l : List β) (n : Nat) (hn : n ≠ 0) :
    (_chunked l n).flatten = l :=
  _chunked_join_aux l.length l (le_refl _) n hn

theorem chunks_disjoint (pending : List PersonInput) (bs : Nat) (hbs : bs ≠ 0)
    (hnodup : (pending.map (fun p => p.row_id)).Nodup) (i j : Nat)
    (hi : i < (_chunked pending bs).length) (hj : j < (_chunked pending bs).length)
    (hne : j ≠ i) (p : PersonInput) (hp : p ∈ (_chunked pending bs).get ⟨i, hi⟩) :
    p.row_id ∉ ((_chunked pending bs).get ⟨j, hj⟩).map (fun q => q.row_id) := by
  have hjoin : ((_chunked pending bs).map (fun c => c.map (fun q => q.row_id))).flatten =
      pending.map (fun q => q.row_id) := by
    rw [← List.map_flatten, _chunked_join pending bs hbs]
  have hnd : (((_chunked pending bs).map (fun c => c.map (fun q => q.row_id))).flatten).Nodup := by
    rw [hjoin]
    exact hnodup
  have hpair := (List.nodup_flatten.mp hnd).2
  have hLlen : i < ((_chunked pending bs).map (fun c => c.map (fun q => q.row_id))).length := by
    simpa using hi
  have hLlenj : j < ((_chunked pending bs).map (fun c => c.map (fun q => q.row_id))).length := by
    simpa using hj
  have hpget : p.row_id ∈ ((_chunked pending bs).map (fun c => c.map (fun q => q.row_id))).get ⟨i, hLlen⟩ := by
    rw [List.get_map]
    exact List.mem_map.mpr ⟨p, hp, rfl⟩
  have hdisj : List.Disjoint
      (((_chunked pending bs).map (fun c => c.map (fun q => q.row_id))).get ⟨i, hLlen⟩)
      (((_chunked pending bs).map (fun c => c.map (fun q => q.row_id))).get ⟨j, hLlenj⟩) := by
    rcases Nat.lt_or_ge i j with hij | hij
    · exact List.pairwise_iff_get.mp hpair ⟨i, hLlen⟩ ⟨j, hLlenj⟩ hij
    · have hji : j < i := by omega
      exact List.Disjoint.symm
        (List.pairwise_iff_get.mp hpair ⟨j, hLlenj⟩ ⟨i, hLlen⟩ hji)
  intro hmem
  refine hdisj hpget ?_
  rw [List.get_map]
  exact hmem

theorem apollo_err_fold_log (msg now : String) :
    ∀ (persons : List PersonInput) (db : DB),
    (persons.foldl (fun d p => update_apollo_sync_result d p.row_id "error" none none
      (some msg) none now) db).batch_log = db.batch_log := by
  intro persons
  induction persons with
  | nil => intro db; rfl
  | cons p t ih =>
    intro db
    simp only [List.foldl_cons]
    exact ih _

theorem apollo_err_fold_within (msg now : String) :
    ∀ (persons : List PersonInput) (db : DB),
    RowsMapWithin (persons.map (fun p => p.row_id)) db.rows
      ((persons.foldl (fun d p => update_apollo_sync_result d p.row_id "error" none none
        (some msg) none now) db)).rows := by
  intro persons
  induction persons with
  | nil => intro db; exact rowsMapWithin_refl _ _
  | cons p t ih =>
    intro db
    simp only [List.foldl_cons]
    have hmem : p.row_id ∈ (p :: t).map (fun q => q.row_id) := by simp
    have hsub : ∀ x ∈ t.map (fun q => q.row_id), x ∈ (p :: t).map (fun q => q.row_id) := by
      intro x hx
      simp only [List.map_cons, List.mem_cons]
      exact Or.inr hx
    exact rowsMapWithin_trans (update_apollo_sync_result_within hmem db _ _ _ _ _ _)
      (rowsMapWithin_mono hsub (ih _))

theorem apollo_err_update_fact (pid q : Nat) (db : DB) (msg now : String)
    (h : pid = q ∨ RowsFact pid (apolloErrFact msg) db.rows) :
    RowsFact pid (apolloErrFact msg)
      (update_apollo_sync_result db q "error" none none (some msg) none now).rows := by
  intro r hr hrid
  rw [update_apollo_sync_result, DB.updateRows] at hr
  obtain ⟨r0, hr0, rfl⟩ := List.mem_map.mp hr
  by_cases hq : r0.row_id = q
  · rw [if_pos hq]
    exact ⟨rfl, rfl⟩
  · rw [if_neg hq] at hrid ⊢
    rcases h with h | h
    · exact absurd (hrid.trans h) hq
    · exact h r0 hr0 hrid

theorem apollo_err_fold_fact (msg now : String) :
    ∀ (persons : List PersonInput) (db : DB) (pid : Nat),
    (pid ∈ persons.map (fun p => p.row_id) ∨ RowsFact pid (apolloErrFact msg) db.rows) →
    RowsFact pid (apolloErrFact msg)
      ((persons.foldl (fun d p => update_apollo_sync_result d p.row_id "error" none none
        (some msg) none now) db)).rows := by
  intro persons
  induction persons with
  | nil =>
    intro db pid h
    rcases h with h | h
    · simp at h
    · exact h
  | cons p t ih =>
    intro db pid h
    simp only [List.foldl_cons]
    apply ih
    rcases h with h | h
    · simp only [List.map_cons, List.mem_cons] at h
      rcases h with h | h
      · exact Or.inr (apollo_err_update_fact pid p.row_id db msg now (Or.inl h))
      · exact Or.inl h
    · exact Or.inr (apollo_err_update_fact pid p.row_id db msg now (Or.inr h))

theorem apollo_err_path_facts (persons : List PersonInput) (bid : String) (db : DB)
    (now msg : String) :
    (∀ p ∈ persons, RowsFact p.row_id (apolloErrFact msg)
      ((persons.foldl (fun d p => update_apollo_sync_result d p.row_id "error" none none
        (some msg) none now)
        (update_batch_status (log_batch db "apollo" bid (persons.map (fun p => p.row_id))
          "submitted" none none) bid "error" none (some msg) now))).rows) ∧
    (logWith db bid = [] →
      logWith ((persons.foldl (fun d p => update_apollo_sync_result d p.row_id "error"
        none none (some msg) none now)
        (update_batch_status (log_batch db "apollo" bid (persons.map (fun p => p.row_id))
          "submitted" none none) bid "error" none (some msg) now))) bid =
        [errLogEntry "apollo" bid (persons.map (fun p => p.row_id)) msg now]) := by
  constructor
  · intro p hp
    exact apollo_err_fold_fact msg now persons _ p.row_id
      (Or.inl (List.mem_map.mpr ⟨p, hp, rfl⟩))
  · intro hfresh
    have hfresh2 : db.batch_log.filter (fun b => b.batch_id == bid) = [] := hfresh
    have h1 : ((persons.foldl (fun d p => update_apollo_sync_result d p.row_id "error"
        none none (some msg) none now)
        (update_batch_status (log_batch db "apollo" bid (persons.map (fun p => p.row_id))
          "submitted" none none) bid "error" none (some msg) now))).batch_log =
        ((db.batch_log ++ ([{ api := "apollo", batch_id := bid, row_ids := persons.map (fun p => p.row_id), status := "submitted", http_status := none, error := none }] : List BatchLogRow)).map
          (fun b : BatchLogRow => if b.batch_id == bid then ({ b with status := "error", response_at := some now, http_status := none, error := some msg } : BatchLogRow) else b)) := by
      rw [apollo_err_fold_log]
      rfl
    rw [logWith, h1, logWith_map_eq _ bid (fun b => { b with status := "error", response_at := some now, http_status := none, error := some msg }) (fun b => rfl), List.filter_append, hfresh2]
    simp only [List.nil_append, List.filter_cons, beq_self_eq_true, if_true,
      List.filter_nil, List.map_cons, List.map_nil]
    rfl

theorem apollo_err_path_log (persons : List PersonInput) (bid : String) (db : DB)
    (now msg : String) :
    ((persons.foldl (fun d p => update_apollo_sync_result d p.row_id "error" none none
        (some msg) none now)
        (update_batch_status (log_batch db "apollo" bid (persons.map (fun p => p.row_id))
          "submitted" none none) bid "error" none (some msg) now))).batch_log =
      ((db.batch_log ++ ([{ api := "apollo", batch_id := bid, row_ids := persons.map (fun p => p.row_id), status := "submitted", http_status := none, error := none }] : List BatchLogRow)).map
        (fun b : BatchLogRow => if b.batch_id == bid then ({ b with status := "error", response_at := some now, http_status := none, error := some msg } : BatchLogRow) else b)) := by
  rw [apollo_err_fold_log]
  rfl

theorem apollo_err_path_within (persons : List PersonInput) (bid : String) (db : DB)
    (now msg : String) :
    RowsMapWithin (persons.map (fun p => p.row_id)) db.rows
      ((persons.foldl (fun d p => update_apollo_sync_result d p.row_id "error" none none
        (some msg) none now)
        (update_batch_status (log_batch db "apollo" bid (persons.map (fun p => p.row_id))
          "submitted" none none) bid "error" none (some msg) now))).rows :=
  apollo_err_fold_within msg now persons _

theorem apollo_enrich_fail_eq (persons : List PersonInput) (bid : String)
    (o : ApolloRemoteOracle) (db : DB) (now msg : String)
    (hf : apolloOracleFails persons o msg) :
    apollo_enrich_and_save persons bid o db now =
      (Except.error msg,
       persons.foldl (fun d p => update_apollo_sync_result d p.row_id "error" none none
         (some msg) none now)
         (update_batch_status (log_batch db "apollo" bid (persons.map (fun p => p.row_id))
           "submitted" none none) bid "error" none (some msg) now)) := by
  match persons with
  | [] =>
    simp only [apolloOracleFails] at hf
    simp only [apollo_enrich_and_save, hf]
  | [p] =>
    simp only [apolloOracleFails] at hf
    simp only [apollo_enrich_and_save, hf]
  | p :: q :: tl =>
    simp only [apolloOracleFails] at hf
    simp only [apollo_enrich_and_save, hf]

theorem apollo_enrich_fail (persons : List PersonInput) (bid : String)
    (o : ApolloRemoteOracle) (db : DB) (now msg : String)
    (hf : apolloOracleFails persons o msg) :
    (apollo_enrich_and_save persons bid o db now).1 = Except.error msg ∧
    (∀ p ∈ persons, RowsFact p.row_id (apolloErrFact msg)
      (apollo_enrich_and_save persons bid o db now).2.rows) ∧
    (logWith db bid = [] →
      logWith (apollo_enrich_and_save persons bid o db now).2 bid =
        [errLogEntry "apollo" bid (persons.map (fun p => p.row_id)) msg now]) := by
  rw [apollo_enrich_fail_eq persons bid o db now msg hf]
  exact ⟨rfl, (apollo_err_path_facts persons bid db now msg).1,
    (apollo_err_path_facts persons bid db now msg).2⟩

theorem _save_single_match_effect (row_id : Nat) (m : Option ApolloPersonMatch)
    (bid : String) (db : DB) (now : String) :
    (_save_single_match row_id m bid db now).2.batch_log = db.batch_log ∧
    RowsMapWithin [row_id] db.rows (_save_single_match row_id m bid db now).2.rows := by
  simp only [_save_single_match]
  cases m with
  | none =>
    exact ⟨rfl, update_apollo_sync_result_within (List.mem_singleton.mpr rfl) db _ _ _ _ _ _⟩
  | some m =>
    dsimp only
    by_cases hid : truthyStr m.id = false
    · rw [if_pos hid]
      exact ⟨rfl, update_apollo_sync_result_within (List.mem_singleton.mpr rfl) db _ _ _ _ _ _⟩
    · rw [if_neg hid]
      constructor
      · rw [create_webhook_tracking_log]
        rfl
      · rw [create_webhook_tracking_rows]
        exact update_apollo_sync_result_within (List.mem_singleton.mpr rfl) db _ _ _ _ _ _

theorem _save_bulk_matches_go (matchList : List (Option ApolloPersonMatch))
    (bid now : String) :
    ∀ (persons : List PersonInput) (k : Nat) (st : Nat × DB),
    (((persons.enumFrom k).foldl
      (fun (st : Nat × DB) ip =>
        match matchList.getD ip.1 none with
        | none =>
          (st.1, update_apollo_sync_result st.2 ip.2.row_id "error" none none
            (some "No match found") none now)
        | some m =>
          if truthyStr m.id = false then
            (st.1, update_apollo_sync_result st.2 ip.2.row_id "error" none none
              (some "No match found") none now)
          else
            (st.1 + 1, create_webhook_tracking
              (update_apollo_sync_result st.2 ip.2.row_id "awaiting_webhook" m.email
                m.id none (some (matchDump m)) now)
              (m.id.getD "") ip.2.row_id (some bid))) st)).2.batch_log =
      st.2.batch_log ∧
    RowsMapWithin (persons.map (fun p => p.row_id)) st.2.rows
      (((persons.enumFrom k).foldl
      (fun (st : Nat × DB) ip =>
        match matchList.getD ip.1 none with
        | none =>
          (st.1, update_apollo_sync_result st.2 ip.2.row_id "error" none none
            (some "No match found") none now)
        | some m =>
          if truthyStr m.id = false then
            (st.1, update_apollo_sync_result st.2 ip.2.row_id "error" none none
              (some "No match found") none now)
          else
            (st.1 + 1, create_webhook_tracking
              (update_apollo_sync_result st.2 ip.2.row_id "awaiting_webhook" m.email
                m.id none (some (matchDump m)) now)
              (m.id.getD "") ip.2.row_id (some bid))) st)).2.rows := by
  intro persons
  induction persons with
  | nil =>
    intro k st
    exact ⟨rfl, rowsMapWithin_refl _ _⟩
  | cons p t ih =>
    intro k st
    rw [show List.enumFrom k (p :: t) = (k, p) :: List.enumFrom (k + 1) t from rfl,
        List.foldl_cons]
    have hmem : p.row_id ∈ (p :: t).map (fun q => q.row_id) := by simp
    have hsub : ∀ x ∈ t.map (fun q => q.row_id), x ∈ (p :: t).map (fun q => q.row_id) := by
      intro x hx
      simp only [List.map_cons, List.mem_cons]
      exact Or.inr hx
    cases hm : matchList.getD k none with
    | none =>
      simp only [hm]
      obtain ⟨hlog, hrows⟩ := ih (k + 1) _
      refine ⟨by rw [hlog]; rfl, ?_⟩
      exact rowsMapWithin_trans (update_apollo_sync_result_within hmem st.2 _ _ _ _ _ _)
        (rowsMapWithin_mono hsub hrows)
    | some m =>
      simp only [hm]
      by_cases hid : truthyStr m.id = false
      · rw [if_pos hid]
        obtain ⟨hlog, hrows⟩ := ih (k + 1) _
        refine ⟨by rw [hlog]; rfl, ?_⟩
        exact rowsMapWithin_trans (update_apollo_sync_result_within hmem st.2 _ _ _ _ _ _)
          (rowsMapWithin_mono hsub hrows)
      · rw [if_neg hid]
        obtain ⟨hlog, hrows⟩ := ih (k + 1) _
        refine ⟨by rw [hlog, create_webhook_tracking_log]; rfl, ?_⟩
        refine rowsMapWithin_trans ?_ (rowsMapWithin_mono hsub hrows)
        have hcr := create_webhook_tracking_rows
          (update_apollo_sync_result st.2 p.row_id "awaiting_webhook" m.email m.id none
            (some (matchDump m)) now) (m.id.getD "") p.row_id (some bid)
        rw [hcr]
        exact update_apollo_sync_result_within hmem st.2 _ _ _ _ _ _

theorem _save_bulk_matches_effect (persons : List PersonInput)
    (matchList : List (Option ApolloPersonMatch)) (bid : String) (db : DB)
    (now : String) :
    (_save_bulk_matches persons matchList bid db now).2.batch_log = db.batch_log ∧
    RowsMapWithin (persons.map (fun p => p.row_id)) db.rows
      (_save_bulk_matches persons matchList bid db now).2.rows :=
  _save_bulk_matches_go matchList bid now persons 0 (0, db)

theorem apollo_enrich_effect (persons : List PersonInput) (bid : String)
    (o : ApolloRemoteOracle) (db : DB) (now : String) :
    ∃ f : BatchLogRow → BatchLogRow,
      (∀ b, (f b).batch_id = b.batch_id) ∧
      (apollo_enrich_and_save persons bid o db now).2.batch_log =
        ((db.batch_log ++ ([{ api := "apollo", batch_id := bid, row_ids := persons.map (fun p => p.row_id), status := "submitted", http_status := none, error := none }] : List BatchLogRow)).map
          (fun b : BatchLogRow => if b.batch_id == bid then f b else b)) ∧
      RowsMapWithin (persons.map (fun p => p.row_id)) db.rows
        (apollo_enrich_and_save persons bid o db now).2.rows := by
  have herr : ∀ msg : String, apolloOracleFails persons o msg →
      ∃ f : BatchLogRow → BatchLogRow,
      (∀ b, (f b).batch_id = b.batch_id) ∧
      (apollo_enrich_and_save persons bid o db now).2.batch_log =
        ((db.batch_log ++ ([{ api := "apollo", batch_id := bid, row_ids := persons.map (fun p => p.row_id), status := "submitted", http_status := none, error := none }] : List BatchLogRow)).map
          (fun b : BatchLogRow => if b.batch_id == bid then f b else b)) ∧
      RowsMapWithin (persons.map (fun p => p.row_id)) db.rows
        (apollo_enrich_and_save persons bid o db now).2.rows := by
    intro msg hf
    rw [apollo_enrich_fail_eq persons bid o db now msg hf]
    exact ⟨fun b => { b with status := "error", response_at := some now, http_status := none, error := some msg },
      fun b => rfl, apollo_err_path_log persons bid db now msg,
      apollo_err_path_within persons bid db now msg⟩
  match persons with
  | [] =>
    cases hb : o.bulk with
    | error e => exact herr e (by simp only [apolloOracleFails]; exact hb)
    | ok response =>
      have hres : (apollo_enrich_and_save [] bid o db now).2 =
          update_batch_status (_save_bulk_matches [] response.matchList bid
            (log_batch db "apollo" bid (([] : List PersonInput).map (fun p => p.row_id))
              "submitted" none none) now).2 bid "complete" none none now := by
        simp only [apollo_enrich_and_save, hb]
      rw [hres]
      obtain ⟨hlog1, hwithin⟩ := _save_bulk_matches_effect [] response.matchList bid _ now
      refine ⟨fun b => { b with status := "complete", response_at := some now, http_status := none, error := none },
        fun b => rfl, ?_, ?_⟩
      · rw [update_batch_status_batch_log, hlog1]
        rfl
      · rw [update_batch_status_rows]
        exact hwithin
  | [p] =>
    cases hs : o.single with
    | error e => exact herr e (by simp only [apolloOracleFails]; exact hs)
    | ok result =>
      have hres : (apollo_enrich_and_save [p] bid o db now).2 =
          update_batch_status (_save_single_match p.row_id result.person bid
            (log_batch db "apollo" bid (([p] : List PersonInput).map (fun q => q.row_id))
              "submitted" none none) now).2 bid "complete" none none now := by
        simp only [apollo_enrich_and_save, hs]
      rw [hres]
      obtain ⟨hlog1, hwithin⟩ := _save_single_match_effect p.row_id result.person bid _ now
      refine ⟨fun b => { b with status := "complete", response_at := some now, http_status := none, error := none },
        fun b => rfl, ?_, ?_⟩
      · rw [update_batch_status_batch_log, hlog1]
        rfl
      · rw [update_batch_status_rows]
        exact rowsMapWithin_mono (by intro x hx; simpa using hx) hwithin
  | p :: q :: tl =>
    cases hb : o.bulk with
    | error e => exact herr e (by simp only [apolloOracleFails]; exact hb)
    | ok response =>
      have hres : (apollo_enrich_and_save (p :: q :: tl) bid o db now).2 =
          update_batch_status (_save_bulk_matches (p :: q :: tl) response.matchList bid
            (log_batch db "apollo" bid ((p :: q :: tl).map (fun x => x.row_id))
              "submitted" none none) now).2 bid "complete" none none now := by
        simp only [apollo_enrich_and_save, hb]
      rw [hres]
      obtain ⟨hlog1, hwithin⟩ := _save_bulk_matches_effect (p :: q :: tl)
        response.matchList bid _ now
      refine ⟨fun b => { b with status := "complete", response_at := some now, http_status := none, error := none },
        fun b => rfl, ?_, ?_⟩
      · rw [update_batch_status_batch_log, hlog1]
        rfl
      · rw [update_batch_status_rows]
        exact hwithin

theorem apollo_enrich_len (persons : List PersonInput) (bid : String)
    (o : ApolloRemoteOracle) (db : DB) (now : String) :
    (apollo_enrich_and_save persons bid o db now).2.batch_log.length =
      db.batch_log.length + 1 := by
  obtain ⟨f, _hf, hlog, _⟩ := apollo_enrich_effect persons bid o db now
  rw [hlog]
  simp

theorem apollo_enrich_frame (persons : List PersonInput) (bid : String)
    (o : ApolloRemoteOracle) (db : DB) (now : String) (bid2 : String)
    (hne : bid2 ≠ bid) :
    logWith (apollo_enrich_and_save persons bid o db now).2 bid2 = logWith db bid2 := by
  obtain ⟨f, hf, hlog, _⟩ := apollo_enrich_effect persons bid o db now
  rw [logWith, hlog, logWith_map_ne _ _ _ f hf hne, List.filter_append]
  have hone : (([{ api := "apollo", batch_id := bid, row_ids := persons.map (fun p => p.row_id), status := "submitted", http_status := none, error := none }] : List BatchLogRow)).filter (fun b => b.batch_id == bid2) = [] := by
    simp only [List.filter_cons, List.filter_nil]
    rw [if_neg]
    simp only [beq_iff_eq]
    exact fun he => hne he.symm
  rw [hone, List.append_nil]
  rfl

theorem apollo_enrich_rows_within (persons : List PersonInput) (bid : String)
    (o : ApolloRemoteOracle) (db : DB) (now : String) :
    RowsMapWithin (persons.map (fun p => p.row_id)) db.rows
      (apollo_enrich_and_save persons bid o db now).2.rows :=
  (apollo_enrich_effect persons bid o db now).choose_spec.2.2

/-- C6: in both provider phases, when a chunk's remote call raises, the
client re-raises after writing every member record to status `error`
with the failure text and marking the batch log row `error`, and the
orchestrator loop still runs every chunk (one batch-log row per chunk),
so one failed batch never aborts the phase. Batch identifiers are
assumed fresh and mutually distinct, as the random identifiers of the
source are. -/
theorem c6_failed_batch_containment :
    (∀ (pending : List PersonInput) (batch_size : Nat) (batch_ids : Nat → String)
       (oracles : Nat → LushaRemoteOracle) (db : DB) (now msg : String) (i : Nat)
       (hi : i < (_chunked pending batch_size).length),
       (pending.map (fun p => p.row_id)).Nodup →
       Function.Injective batch_ids →
       (∀ j, logWith db (batch_ids j) = []) →
       lushaOracleFails ((_chunked pending batch_size).get ⟨i, hi⟩) (oracles i) msg →
       (∀ db2 : DB, (lusha_enrich_and_save ((_chunked pending batch_size).get ⟨i, hi⟩)
          (batch_ids i) (oracles i) db2 now).1 = Except.error msg) ∧
       (∀ p ∈ (_chunked pending batch_size).get ⟨i, hi⟩,
          ∀ r ∈ (enrich_lusha pending batch_size batch_ids oracles db now).2.rows,
            r.row_id = p.row_id → r.lusha_status = "error" ∧ r.lusha_error = some msg) ∧
       logWith (enrich_lusha pending batch_size batch_ids oracles db now).2 (batch_ids i) =
         [errLogEntry "lusha" (batch_ids i)
           (((_chunked pending batch_size).get ⟨i, hi⟩).map (fun q => q.row_id)) msg now] ∧
       (enrich_lusha pending batch_size batch_ids oracles db now).2.batch_log.length =
         db.batch_log.length + (_chunked pending batch_size).length) ∧
    (∀ (pending : List PersonInput) (batch_size : Nat) (batch_ids : Nat → String)
       (oracles : Nat → ApolloRemoteOracle) (db : DB) (now msg : String) (i : Nat)
       (hi : i < (_chunked pending batch_size).length),
       (pending.map (fun p => p.row_id)).Nodup →
       Function.Injective batch_ids →
       (∀ j, logWith db (batch_ids j) = []) →
       apolloOracleFails ((_chunked pending batch_size).get ⟨i, hi⟩) (oracles i) msg →
       (∀ db2 : DB, (apollo_enrich_and_save ((_chunked pending batch_size).get ⟨i, hi⟩)
          (batch_ids i) (oracles i) db2 now).1 = Except.error msg) ∧
       (∀ p ∈ (_chunked pending batch_size).get ⟨i, hi⟩,
          ∀ r ∈ (enrich_apollo_sync pending batch_size batch_ids oracles db now).2.rows,
            r.row_id = p.row_id → r.apollo_status = "error" ∧ r.apollo_error = some msg) ∧
       logWith (enrich_apollo_sync pending batch_size batch_ids oracles db now).2
           (batch_ids i) =
         [errLogEntry "apollo" (batch_ids i)
           (((_chunked pending batch_size).get ⟨i, hi⟩).map (fun q => q.row_id)) msg now] ∧
       (enrich_apollo_sync pending batch_size batch_ids oracles db now).2.batch_log.length =
         db.batch_log.length + (_chunked pending batch_size).length) := by
  constructor
  · intro pending bs bids oracles db now msg i hi hnodup hinj hfresh hfail
    have hbs : bs ≠ 0 := by
      intro h0
      subst h0
      rw [show _chunked pending 0 = ([] : List (List PersonInput)) from by
        rw [_chunked]; simp] at hi
      exact absurd hi (by simp)
    have hfail0 : lushaOracleFails ((_chunked pending bs).get ⟨i, hi⟩)
        (oracles (0 + i)) msg := by
      rw [Nat.zero_add]
      exact hfail
    have happ := batch_loop_fail lusha_enrich_and_save bids oracles now
      lushaOracleFails (fun m r => lushaErrFact m r) "lusha"
      (fun persons bid o db2 now2 => lusha_enrich_rows_within persons bid o db2 now2)
      (fun persons bid o db2 now2 => lusha_enrich_len persons bid o db2 now2)
      (fun persons bid o db2 now2 bid2 hne =>
        lusha_enrich_frame persons bid o db2 now2 bid2 hne)
      (fun persons bid o db2 now2 msg2 hf =>
        ⟨(lusha_enrich_fail persons bid o db2 now2 msg2 hf).2.1,
         (lusha_enrich_fail persons bid o db2 now2 msg2 hf).2.2⟩)
      (_chunked pending bs) 0 (0, db) i hi msg hfail0
      (fun p hp j hj hne => chunks_disjoint pending bs hbs hnodup i j hi hj hne p hp)
      (fun j1 j2 _ _ he => by have := hinj he; omega)
      (fun j _ => hfresh (0 + j))
    obtain ⟨m1, m2, m3⟩ := happ
    simp only [Nat.zero_add] at m2
    refine ⟨?_, ?_, ?_, ?_⟩
    · intro db2
      exact (lusha_enrich_fail _ (bids i) (oracles i) db2 now msg hfail).1
    · intro p hp r hr hrid
      exact m1 p hp r hr hrid
    · exact m2
    · exact m3
  · intro pending bs bids oracles db now msg i hi hnodup hinj hfresh hfail
    have hbs : bs ≠ 0 := by
      intro h0
      subst h0
      rw [show _chunked pending 0 = ([] : List (List PersonInput)) from by
        rw [_chunked]; simp] at hi
      exact absurd hi (by simp)
    have hfail0 : apolloOracleFails ((_chunked pending bs).get ⟨i, hi⟩)
        (oracles (0 + i)) msg := by
      rw [Nat.zero_add]
      exact hfail
    have happ := batch_loop_fail apollo_enrich_and_save bids oracles now
      apolloOracleFails (fun m r => apolloErrFact m r) "apollo"
      (fun persons bid o db2 now2 => apollo_enrich_rows_within persons bid o db2 now2)
      (fun persons bid o db2 now2 => apollo_enrich_len persons bid o db2 now2)
      (fun persons bid o db2 now2 bid2 hne =>
        apollo_enrich_frame persons bid o db2 now2 bid2 hne)
      (fun persons bid o db2 now2 msg2 hf =>
        ⟨(apollo_enrich_fail persons bid o db2 now2 msg2 hf).2.1,
         (apollo_enrich_fail persons bid o db2 now2 msg2 hf).2.2⟩)
      (_chunked pending bs) 0 (0, db) i hi msg hfail0
      (fun p hp j hj hne => chunks_disjoint pending bs hbs hnodup i j hi hj hne p hp)
      (fun j1 j2 _ _ he => by have := hinj he; omega)
      (fun j _ => hfresh (0 + j))
    obtain ⟨m1, m2, m3⟩ := happ
    simp only [Nat.zero_add] at m2
    refine ⟨?_, ?_, ?_, ?_⟩
    · intro db2
      exact (apollo_enrich_fail _ (bids i) (oracles i) db2 now msg hfail).1
    · intro p hp r hr hrid
      exact m1 p hp r hr hrid
    · exact m2
    · exact m3

/-- Concrete instance of the C6 containment theorem: a single one-person
chunk whose remote call fails with message boom, for both providers. -/
theorem c6_failed_batch_containment_witness :
    logWith (enrich_lusha [{ row_id := 1 }] 1
        (fun n => String.mk (List.replicate n 'a'))
        (fun _ => ⟨Except.error "boom", Except.error "boom"⟩) {} "t").2
      (String.mk (List.replicate 0 'a')) =
      [errLogEntry "lusha" (String.mk (List.replicate 0 'a')) [1] "boom" "t"] ∧
    (enrich_lusha [{ row_id := 1 }] 1
        (fun n => String.mk (List.replicate n 'a'))
        (fun _ => ⟨Except.error "boom", Except.error "boom"⟩) {} "t").2.batch_log.length = 1 ∧
    logWith (enrich_apollo_sync [{ row_id := 1 }] 1
        (fun n => String.mk (List.replicate n 'a'))
        (fun _ => ⟨Except.error "boom", Except.error "boom"⟩) {} "t").2
      (String.mk (List.replicate 0 'a')) =
      [errLogEntry "apollo" (String.mk (List.replicate 0 'a')) [1] "boom" "t"] ∧
    (enrich_apollo_sync [{ row_id := 1 }] 1
        (fun n => String.mk (List.replicate n 'a'))
        (fun _ => ⟨Except.error "boom", Except.error "boom"⟩) {} "t").2.batch_log.length = 1 := by
  have hch : _chunked ([{ row_id := 1 }] : List PersonInput) 1 =
      [[({ row_id := 1 } : PersonInput)]] := by
    rw [_chunked]
    simp
    rw [_chunked]
    simp
  have hi0 : 0 < (_chunked ([{ row_id := 1 }] : List PersonInput) 1).length := by
    rw [hch]
    simp
  have hget : (_chunked ([{ row_id := 1 }] : List PersonInput) 1).get ⟨0, hi0⟩ =
      [({ row_id := 1 } : PersonInput)] := by
    revert hi0
    rw [hch]
    intro hi0
    rfl
  have hnodup : (([{ row_id := 1 }] : List PersonInput).map (fun p => p.row_id)).Nodup := by
    simp
  have hinj : Function.Injective (fun n : Nat => String.mk (List.replicate n 'a')) := by
    intro a b h
    have h2 := congrArg (fun s : String => s.data.length) h
    simpa using h2
  have hfailL : lushaOracleFails
      ((_chunked ([{ row_id := 1 }] : List PersonInput) 1).get ⟨0, hi0⟩)
      (⟨Except.error "boom", Except.error "boom"⟩ : LushaRemoteOracle) "boom" := by
    rw [hget]
    rfl
  have hfailA : apolloOracleFails
      ((_chunked ([{ row_id := 1 }] : List PersonInput) 1).get ⟨0, hi0⟩)
      (⟨Except.error "boom", Except.error "boom"⟩ : ApolloRemoteOracle) "boom" := by
    rw [hget]
    rfl
  have hL := c6_failed_batch_containment.1 [{ row_id := 1 }] 1
    (fun n => String.mk (List.replicate n 'a'))
    (fun _ => ⟨Except.error "boom", Except.error "boom"⟩) {} "t" "boom" 0 hi0
    hnodup hinj (fun _ => rfl) hfailL
  have hA := c6_failed_batch_containment.2 [{ row_id := 1 }] 1
    (fun n => String.mk (List.replicate n 'a'))
    (fun _ => ⟨Except.error "boom", Except.error "boom"⟩) {} "t" "boom" 0 hi0
    hnodup hinj (fun _ => rfl) hfailA
  obtain ⟨-, -, hlogL, hlenL⟩ := hL
  obtain ⟨-, -, hlogA, hlenA⟩ := hA
  rw [hget] at hlogL hlogA
  rw [hch] at hlenL hlenA
  exact ⟨hlogL, hlenL, hlogA, hlenA⟩
